import Mathlib

/-!
Verification of the pi-orm `Base` DB helper (`src/piorm/main.py`).

The development shallowly embeds the Python module:
* `PyVal` is the universe of Python values handled by the helper
  (`None`, `bool`, `int`, `str`, `list`, `dict` with string keys; floats are
  outside the modelled universe).
* `dumps` / `loads` model the external `json.dumps` / `json.loads`
  library calls (default separators, `ensure_ascii` escaping, surrogate
  pairs); `loads` is a fuel-indexed recursive-descent parser.
* The CRUD helpers (`callback_create`, `callback_read`, `callback_update`,
  `callback_delete`, `check_primary_keys`, `get_primary_key_condition`,
  `create_table`, `delete_table`, `read_all`) are translated from the
  source, returning either a raised Python error or the statement they
  would execute.
* The sqlite backend itself is external to the repository; `Table`,
  `execStmt`, `selectWhere`, `fetchone` model the storage boundary from
  the specification (execute statement with positional parameters,
  fetch-one row, commit).
-/

namespace PiOrm

/-- Semantic type tag of a field, the Python type objects `int`, `str`,
`dict` stored as metadata values. -/
inductive PyType where
  | int
  | str
  | dict
deriving DecidableEq

/-- Python values manipulated by the helper.  Lists and dicts cover the
JSON-serializable universe (floats excluded); dicts are association lists
in insertion order, mirroring Python dict iteration order. -/
inductive PyVal where
  | vNone
  | vBool (b : Bool)
  | vInt (n : Int)
  | vStr (s : String)
  | vList (xs : List PyVal)
  | vDict (kvs : List (String × PyVal))

mutual

/-- Structural boolean equality of Python values.  (Python `==` also
identifies `True` with `1` and ignores dict ordering; the helper only ever
compares primitive stored values, where the two coincide.) -/
def pyBeq : PyVal → PyVal → Bool
  | .vNone, .vNone => true
  | .vBool a, .vBool b => a == b
  | .vInt a, .vInt b => a == b
  | .vStr a, .vStr b => a == b
  | .vList a, .vList b => pyBeqList a b
  | .vDict a, .vDict b => pyBeqKvs a b
  | _, _ => false

/-- Elementwise `pyBeq` on lists. -/
def pyBeqList : List PyVal → List PyVal → Bool
  | [], [] => true
  | a :: xs, b :: ys => pyBeq a b && pyBeqList xs ys
  | _, _ => false

/-- Elementwise `pyBeq` on key-value lists. -/
def pyBeqKvs : List (String × PyVal) → List (String × PyVal) → Bool
  | [], [] => true
  | (j, a) :: xs, (k, b) :: ys => j == k && pyBeq a b && pyBeqKvs xs ys
  | _, _ => false

end

/-- Python errors raised by the helper: `KeyError` from a failed dict
lookup, `AssertionError` from `check_primary_keys`. -/
inductive PyErr where
  | keyError (k : String)
  | assertionError (msg : String)
deriving DecidableEq

/-- The left-brace character, kept out of literals. -/
def lbrace : Char := Char.ofNat 123

/-- The right-brace character, kept out of literals. -/
def rbrace : Char := Char.ofNat 125

/-- The single-quote character. -/
def squote : Char := Char.ofNat 39

/-- Decimal digit to its character. -/
def digitChar (d : Nat) : Char := Char.ofNat (48 + d)

/-- Big-endian decimal digits of `n`, accumulator style; the first
argument is fuel (any bound on the digit count, `n` itself suffices). -/
def natCharsAux : Nat → Nat → List Char → List Char
  | 0, _, acc => acc
  | fuel + 1, n, acc =>
    if n = 0 then acc
    else natCharsAux fuel (n / 10) (digitChar (n % 10) :: acc)

/-- Decimal representation of a natural number, as Python `str`. -/
def natChars (n : Nat) : List Char := if n = 0 then ['0'] else natCharsAux n n []

/-- Decimal representation of an integer, as Python `str`. -/
def intChars (n : Int) : List Char :=
  if n < 0 then '-' :: natChars n.natAbs else natChars n.toNat

/-- Lowercase hexadecimal digit. -/
def hexDigitChar (d : Nat) : Char :=
  if d < 10 then Char.ofNat (48 + d) else Char.ofNat (87 + d)

/-- Four lowercase hex digits of `n < 0x10000`, as in a JSON `\u` escape. -/
def hex4 (n : Nat) : List Char :=
  [hexDigitChar (n / 4096 % 16), hexDigitChar (n / 256 % 16),
   hexDigitChar (n / 16 % 16), hexDigitChar (n % 16)]

/-- Encoding of one character inside a JSON string literal, following
`json.dumps` with its default `ensure_ascii=True`: printable ASCII other
than quote and backslash is verbatim, the five short escapes are used,
anything else becomes `\uXXXX`, with a surrogate pair above `0xFFFF`. -/
def escChar (c : Char) : List Char :=
  if c = '"' then ['\\', '"']
  else if c = '\\' then ['\\', '\\']
  else if c = Char.ofNat 8 then ['\\', 'b']
  else if c = Char.ofNat 12 then ['\\', 'f']
  else if c = '\n' then ['\\', 'n']
  else if c = '\r' then ['\\', 'r']
  else if c = '\t' then ['\\', 't']
  else if 32 ≤ c.toNat ∧ c.toNat ≤ 126 then [c]
  else if c.toNat < 65536 then '\\' :: 'u' :: hex4 c.toNat
  else
    '\\' :: 'u' :: (hex4 (55296 + (c.toNat - 65536) / 1024) ++
      ('\\' :: 'u' :: hex4 (56320 + (c.toNat - 65536) % 1024)))

/-- Body of a JSON string literal: the escaped characters followed by the
closing quote. -/
def escBody : List Char → List Char
  | [] => ['"']
  | c :: cs => escChar c ++ escBody cs

mutual

/-- Characters of `json.dumps` of a value, with the default separators
`", "` and `": "`. -/
def dumpChars : PyVal → List Char
  | .vNone => ['n', 'u', 'l', 'l']
  | .vBool true => ['t', 'r', 'u', 'e']
  | .vBool false => ['f', 'a', 'l', 's', 'e']
  | .vInt n => intChars n
  | .vStr s => '"' :: escBody s.data
  | .vList [] => ['[', ']']
  | .vList (x :: xs) => '[' :: (dumpChars x ++ listTailChars xs)
  | .vDict [] => [lbrace, rbrace]
  | .vDict ((k, v) :: kvs) => lbrace :: (memberChars k v ++ dictTailChars kvs)

/-- Characters of the remaining elements of a dumped JSON array, from the
second element on, including the closing bracket. -/
def listTailChars : List PyVal → List Char
  | [] => [']']
  | x :: xs => ',' :: ' ' :: (dumpChars x ++ listTailChars xs)

/-- Characters of one dumped JSON object member, `"key": value`. -/
def memberChars (k : String) (v : PyVal) : List Char :=
  '"' :: (escBody k.data ++ (':' :: ' ' :: dumpChars v))

/-- Characters of the remaining members of a dumped JSON object, from the
second member on, including the closing brace. -/
def dictTailChars : List (String × PyVal) → List Char
  | [] => [rbrace]
  | (k, v) :: kvs => ',' :: ' ' :: (memberChars k v ++ dictTailChars kvs)

end

/-- Model of `json.dumps` with default options. -/
def dumps (v : PyVal) : String := ⟨dumpChars v⟩

/-- Source `Base.json_to_str`: `json.dumps(a)`. -/
def json_to_str (a : PyVal) : String := dumps a

/-- Whether a character is JSON whitespace. -/
def isWsChar (c : Char) : Bool := c = ' ' || c = '\t' || c = '\n' || c = '\r'

/-- Drop leading JSON whitespace. -/
def skipWs : List Char → List Char
  | [] => []
  | c :: r => if isWsChar c then skipWs r else c :: r

/-- Value of one hexadecimal digit character. -/
def hexVal (c : Char) : Option Nat :=
  if 48 ≤ c.toNat ∧ c.toNat ≤ 57 then some (c.toNat - 48)
  else if 97 ≤ c.toNat ∧ c.toNat ≤ 102 then some (c.toNat - 87)
  else if 65 ≤ c.toNat ∧ c.toNat ≤ 70 then some (c.toNat - 55)
  else Option.none

/-- Value of a four-hex-digit group. -/
def hexVal4 (h1 h2 h3 h4 : Char) : Option Nat :=
  match hexVal h1, hexVal h2, hexVal h3, hexVal h4 with
  | some a, some b, some c, some d => some (a * 4096 + b * 256 + c * 16 + d)
  | _, _, _, _ => Option.none

/-- Decoding of a one-character JSON escape. -/
def unescapeChar (e : Char) : Option Char :=
  if e = '"' then some '"'
  else if e = '\\' then some '\\'
  else if e = '/' then some '/'
  else if e = 'b' then some (Char.ofNat 8)
  else if e = 'f' then some (Char.ofNat 12)
  else if e = 'n' then some '\n'
  else if e = 'r' then some '\r'
  else if e = 't' then some '\t'
  else Option.none

/-- Decoding of the low-surrogate escape following a high surrogate `n`:
expects `\uXXXX` with a low surrogate and combines the pair. -/
def unescLow (n : Nat) : List Char → Option (Char × List Char)
  | b1 :: b2 :: g1 :: g2 :: g3 :: g4 :: r4 =>
    if b1 = '\\' ∧ b2 = 'u' then
      match hexVal4 g1 g2 g3 g4 with
      | some m =>
        if 56320 ≤ m ∧ m ≤ 57343 then
          some (Char.ofNat (65536 + (n - 55296) * 1024 + (m - 56320)), r4)
        else Option.none
      | Option.none => Option.none
    else Option.none
  | _ => Option.none

/-- Decoding of a `\u` escape (input after the `u`): four hex digits; a
high surrogate must be followed by a low-surrogate escape (a lone
surrogate is rejected — such strings are outside the modelled value
universe). -/
def unescU : List Char → Option (Char × List Char)
  | h1 :: h2 :: h3 :: h4 :: r3 =>
    match hexVal4 h1 h2 h3 h4 with
    | some n =>
      if 55296 ≤ n ∧ n ≤ 56319 then unescLow n r3
      else if 56320 ≤ n ∧ n ≤ 57343 then Option.none
      else some (Char.ofNat n, r3)
    | Option.none => Option.none
  | _ => Option.none

/-- Decoding of one escape sequence (input after the backslash). -/
def unescEsc : List Char → Option (Char × List Char)
  | [] => Option.none
  | e :: r2 =>
    if e = 'u' then unescU r2
    else
      match unescapeChar e with
      | some c2 => some (c2, r2)
      | Option.none => Option.none

/-- Fuel-indexed parser for the body of a JSON string literal (the
opening quote already consumed), returning the decoded characters and
the rest of the input; unescaped control characters are rejected. -/
def parseStringBodyF : Nat → List Char → Option (List Char × List Char)
  | 0, _ => Option.none
  | _ + 1, [] => Option.none
  | f + 1, c :: r =>
    if c = '"' then some ([], r)
    else if c = '\\' then
      match unescEsc r with
      | some (c2, r2) =>
        match parseStringBodyF f r2 with
        | some (cs, r5) => some (c2 :: cs, r5)
        | Option.none => Option.none
      | Option.none => Option.none
    else if c.toNat < 32 then Option.none
    else
      match parseStringBodyF f r with
      | some (cs, r5) => some (c :: cs, r5)
      | Option.none => Option.none

/-- Parse the body of a JSON string literal; the input length bounds the
number of decoded characters, so it serves as fuel. -/
def parseStringBody (s : List Char) : Option (List Char × List Char) :=
  parseStringBodyF (s.length + 1) s

/-- Parse a maximal run of decimal digits, accumulator style. -/
def parseDigits (acc : Nat) : List Char → Nat × List Char
  | [] => (acc, [])
  | c :: r => if c.isDigit then parseDigits (acc * 10 + (c.toNat - 48)) r else (acc, c :: r)

/-- Strip an exact expected prefix from the input. -/
def expects : List Char → List Char → Option (List Char)
  | [], s => some s
  | p :: ps, c :: cs => if c = p then expects ps cs else Option.none
  | _ :: _, [] => Option.none

mutual

/-- Fuel-indexed recursive-descent parser for one JSON value, modelling
`json.loads` on the int/str/bool/null/array/object fragment (float
syntax is not parsed: float values are outside the modelled universe). -/
def parseValue : Nat → List Char → Option (PyVal × List Char)
  | 0, _ => Option.none
  | f + 1, s =>
    match skipWs s with
    | [] => Option.none
    | c :: r =>
      if c = 'n' then
        match expects ['u', 'l', 'l'] r with
        | some r2 => some (.vNone, r2)
        | Option.none => Option.none
      else if c = 't' then
        match expects ['r', 'u', 'e'] r with
        | some r2 => some (.vBool true, r2)
        | Option.none => Option.none
      else if c = 'f' then
        match expects ['a', 'l', 's', 'e'] r with
        | some r2 => some (.vBool false, r2)
        | Option.none => Option.none
      else if c = '"' then
        match parseStringBody r with
        | Option.none => Option.none
        | some (cs, r2) => some (.vStr ⟨cs⟩, r2)
      else if c = '[' then
        let r1 := skipWs r
        if r1.head? = some ']' then some (.vList [], r1.tail)
        else
          match parseValue f r1 with
          | Option.none => Option.none
          | some (v, r2) =>
            match parseListTail f r2 with
            | Option.none => Option.none
            | some (vs, r3) => some (.vList (v :: vs), r3)
      else if c = lbrace then
        let r1 := skipWs r
        if r1.head? = some rbrace then some (.vDict [], r1.tail)
        else
          match parseMember f r1 with
          | Option.none => Option.none
          | some (kv, r2) =>
            match parseDictTail f r2 with
            | Option.none => Option.none
            | some (kvs, r3) => some (.vDict (kv :: kvs), r3)
      else if c = '-' then
        match r with
        | d :: _ =>
          if d.isDigit then
            let p := parseDigits 0 r
            some (.vInt (-(p.1 : Int)), p.2)
          else Option.none
        | [] => Option.none
      else if c.isDigit then
        let p := parseDigits 0 (c :: r)
        some (.vInt (p.1 : Int), p.2)
      else Option.none

/-- Parse the elements of a JSON array after the first one: either the
closing bracket or a comma followed by a value. -/
def parseListTail : Nat → List Char → Option (List PyVal × List Char)
  | 0, _ => Option.none
  | f + 1, s =>
    let s1 := skipWs s
    if s1.head? = some ']' then some ([], s1.tail)
    else if s1.head? = some ',' then
      match parseValue f s1.tail with
      | Option.none => Option.none
      | some (v, r2) =>
        match parseListTail f r2 with
        | Option.none => Option.none
        | some (vs, r3) => some (v :: vs, r3)
    else Option.none

/-- Parse one JSON object member, `"key": value`. -/
def parseMember : Nat → List Char → Option ((String × PyVal) × List Char)
  | 0, _ => Option.none
  | f + 1, s =>
    let s1 := skipWs s
    if s1.head? = some '"' then
      match parseStringBody s1.tail with
      | Option.none => Option.none
      | some (k, r2) =>
        let r3 := skipWs r2
        if r3.head? = some ':' then
          match parseValue f r3.tail with
          | Option.none => Option.none
          | some (v, r4) => some ((⟨k⟩, v), r4)
        else Option.none
    else Option.none

/-- Parse the members of a JSON object after the first one: either the
closing brace or a comma followed by a member. -/
def parseDictTail : Nat → List Char → Option (List (String × PyVal) × List Char)
  | 0, _ => Option.none
  | f + 1, s =>
    let s1 := skipWs s
    if s1.head? = some rbrace then some ([], s1.tail)
    else if s1.head? = some ',' then
      match parseMember f s1.tail with
      | Option.none => Option.none
      | some (kv, r2) =>
        match parseDictTail f r2 with
        | Option.none => Option.none
        | some (kvs, r3) => some (kv :: kvs, r3)
    else Option.none

end

/-- Model of `json.loads`: parse one value, require only whitespace after
it. -/
def loads (s : String) : Option PyVal :=
  match parseValue (s.data.length + 1) s.data with
  | some (v, rest) => if skipWs rest = [] then some v else Option.none
  | Option.none => Option.none

/-- Source `Base.str_to_json`: `None` input propagates to `None`, a string
is `json.loads`-parsed with every raised error swallowed into `None`
(`json.loads` raises `TypeError` on non-string input, also swallowed). -/
def str_to_json (a : PyVal) : PyVal :=
  match a with
  | .vNone => .vNone
  | .vStr s =>
    match loads s with
    | some v => v
    | Option.none => .vNone
  | _ => .vNone

/-- Keys of the metadata dict skipped by every field loop in the source. -/
def reservedKeys : List String := ["super", "meta_data", "table_name"]

/-- Table metadata: field name to type-tag entries in iteration order,
plus the `super` sub-dict's `primary_key` list and `defaults` dict. -/
structure MetaData where
  fields : List (String × PyType)
  primary_key : List String
  defaults : List (String × PyVal)

/-- Sentinel test from `callback_create`: Python `data[k] in ["", -1, {}]`
(empty string, absent-integer sentinel, empty dict). -/
def isSentinel : PyVal → Bool
  | .vStr s => s == ""
  | .vInt n => n == -1
  | .vDict kvs => kvs.isEmpty
  | _ => false

/-- Python `data.get(k) is None`: key absent or mapped to `None`. -/
def isNoneOrMissing (data : List (String × PyVal)) (k : String) : Bool :=
  match data.lookup k with
  | Option.none => true
  | some .vNone => true
  | some _ => false

/-- Source `Base.check_primary_keys`: raise `AssertionError` at the first
primary-key field that is missing or `None` in `data`. -/
def check_primary_keys (data : List (String × PyVal)) (md : MetaData) : Except PyErr Unit :=
  match md.primary_key.find? (isNoneOrMissing data) with
  | some k => .error (.assertionError ("Error: " ++ k ++ " key is primary and None"))
  | Option.none => .ok ()

/-- Parameter loop of `get_primary_key_condition`: for each primary-key
field, look up its type (`meta_data[k]`, `KeyError` if absent), then its
value (`data[k]`, `KeyError` if absent); dict-typed values are
`json_to_str`-encoded, others bind as-is. -/
def pkCondParams (data : List (String × PyVal)) (md : MetaData) :
    List String → Except PyErr (List PyVal)
  | [] => .ok []
  | k :: ks =>
    match md.fields.lookup k with
    | Option.none => .error (.keyError k)
    | some ty =>
      match data.lookup k with
      | Option.none => .error (.keyError k)
      | some v =>
        match pkCondParams data md ks with
        | .error e => .error e
        | .ok ps => .ok ((if ty = .dict then .vStr (json_to_str v) else v) :: ps)

/-- Source `Base.get_primary_key_condition`: the `" AND "`-joined equality
condition over the primary-key fields plus the encoded parameter list. -/
def get_primary_key_condition (data : List (String × PyVal)) (md : MetaData) :
    Except PyErr (String × List PyVal) :=
  match pkCondParams data md md.primary_key with
  | .error e => .error e
  | .ok ps =>
    .ok (String.intercalate " AND " (md.primary_key.map (fun k => k ++ " = ?")), ps)

/-- A DML statement handed to the storage backend, in structured form:
the SQL text the source builds is recovered by `stmtText`, the positional
parameter list by `stmtParams`. -/
inductive SqlStmt where
  | insert (table : String) (cols : List String) (params : List PyVal)
  | update (table : String) (assigns : List (String × PyVal)) (cond : List (String × PyVal))
  | delete (table : String) (cond : List (String × PyVal))

/-- The condition text built from condition pairs, as in the source. -/
def condText (cond : List (String × PyVal)) : String :=
  String.intercalate " AND " (cond.map (fun kw => kw.1 ++ " = ?"))

/-- The SQL text of a statement, exactly the `q` string each callback
builds. -/
def stmtText : SqlStmt → String
  | .insert t cols _ =>
    "INSERT INTO " ++ t ++ " (" ++ String.intercalate ", " cols ++ ") VALUES ("
      ++ String.intercalate ", " (cols.map (fun _ => "?")) ++ ")"
  | .update t assigns cond =>
    "UPDATE " ++ t ++ " SET " ++ String.intercalate ", " (assigns.map (fun kv => kv.1 ++ " = ?"))
      ++ " WHERE " ++ condText cond
  | .delete t cond => "DELETE FROM " ++ t ++ " WHERE " ++ condText cond

/-- The positional parameters of a statement, in the order the source
passes them (`params + where_params` for update). -/
def stmtParams : SqlStmt → List PyVal
  | .insert _ _ params => params
  | .update _ assigns cond => assigns.map Prod.snd ++ cond.map Prod.snd
  | .delete _ cond => cond.map Prod.snd

/-- Column/parameter loop of `callback_create`: skip sentinel values,
look up the field type (`meta_data[k]`, `KeyError` if absent), encode
dict-typed values through `json_to_str`. -/
def buildCreateCols (md : MetaData) :
    List (String × PyVal) → Except PyErr (List String × List PyVal)
  | [] => .ok ([], [])
  | (k, v) :: rest =>
    if isSentinel v then buildCreateCols md rest
    else
      match md.fields.lookup k with
      | Option.none => .error (.keyError k)
      | some ty =>
        match buildCreateCols md rest with
        | .error e => .error e
        | .ok (cols, params) =>
          .ok (k :: cols, (if ty = .dict then .vStr (json_to_str v) else v) :: params)

/-- Source `Base.callback_create`: validate primary keys, filter sentinel
values, and either return without a statement (no columns left) or
produce the insert statement. -/
def callback_create (table_name : String) (data : List (String × PyVal)) (md : MetaData) :
    Except PyErr (Option SqlStmt) :=
  match check_primary_keys data md with
  | .error e => .error e
  | .ok _ =>
    match buildCreateCols md data with
    | .error e => .error e
    | .ok (cols, params) =>
      if cols.isEmpty then .ok Option.none
      else .ok (some (.insert table_name cols params))

/-- Assignment loop of `callback_update`: skip primary-key fields, keep
every other field of `data` (no sentinel filtering), encoding dict-typed
values through `json_to_str`. -/
def buildAssignments (md : MetaData) (pks : List String) :
    List (String × PyVal) → Except PyErr (List (String × PyVal))
  | [] => .ok []
  | (k, v) :: rest =>
    if k ∈ pks then buildAssignments md pks rest
    else
      match md.fields.lookup k with
      | Option.none => .error (.keyError k)
      | some ty =>
        match buildAssignments md pks rest with
        | .error e => .error e
        | .ok xs => .ok ((k, if ty = .dict then .vStr (json_to_str v) else v) :: xs)

/-- Source `Base.callback_update`: build the primary-key condition, then
the SET assignments over non-key fields; no statement when there are no
assignments. -/
def callback_update (table_name : String) (data : List (String × PyVal)) (md : MetaData) :
    Except PyErr (Option SqlStmt) :=
  match get_primary_key_condition data md with
  | .error e => .error e
  | .ok (_, wparams) =>
    match buildAssignments md md.primary_key data with
    | .error e => .error e
    | .ok assigns =>
      if assigns.isEmpty then .ok Option.none
      else .ok (some (.update table_name assigns (md.primary_key.zip wparams)))

/-- Source `Base.callback_delete`: build the primary-key condition and
the delete statement. -/
def callback_delete (table_name : String) (data : List (String × PyVal)) (md : MetaData) :
    Except PyErr SqlStmt :=
  match get_primary_key_condition data md with
  | .error e => .error e
  | .ok (_, wparams) => .ok (.delete table_name (md.primary_key.zip wparams))

/-- Modelled from the spec: the stored state of one table at the storage
backend (the sqlite engine is external to the repository) — column names
in declaration order and rows in insertion order. -/
structure Table where
  cols : List String
  rows : List (List PyVal)

/-- Modelled from the spec: SQL equality of two stored values, used by a
`col = ?` condition; a comparison with NULL never holds. -/
def sqlEq (a b : PyVal) : Bool :=
  match a, b with
  | .vNone, _ => false
  | _, .vNone => false
  | _, _ => pyBeq a b

/-- Value of column `k` in row `r`. -/
def getCol (cols : List String) (r : List PyVal) (k : String) : Option PyVal :=
  (cols.zip r).lookup k

/-- Modelled from the spec: whether a row satisfies the AND-joined
equality condition. -/
def rowMatches (cols : List String) (cond : List (String × PyVal)) (r : List PyVal) : Bool :=
  cond.all (fun kw =>
    match getCol cols r kw.1 with
    | some x => sqlEq x kw.2
    | Option.none => false)

/-- Modelled from the spec: apply a SET assignment list to one row. -/
def applyAssigns (cols : List String) (assigns : List (String × PyVal)) (r : List PyVal) :
    List PyVal :=
  (cols.zip r).map (fun cx => (assigns.lookup cx.1).getD cx.2)

/-- Modelled from the spec: execution of one DML statement against a
table (`manage_table`: execute with parameters, commit). Unmentioned
columns of an insert become NULL. -/
def execStmt (tbl : Table) : SqlStmt → Table
  | .insert _ cols params =>
    { tbl with rows := tbl.rows ++ [tbl.cols.map (fun c => ((cols.zip params).lookup c).getD .vNone)] }
  | .update _ assigns cond =>
    { tbl with rows := tbl.rows.map (fun r =>
        if rowMatches tbl.cols cond r then applyAssigns tbl.cols assigns r else r) }
  | .delete _ cond =>
    { tbl with rows := tbl.rows.filter (fun r => !(rowMatches tbl.cols cond r)) }

/-- Modelled from the spec: result set of a SELECT with a WHERE equality
condition, rows in stored order. -/
def selectWhere (tbl : Table) (cond : List (String × PyVal)) : List (List PyVal) :=
  tbl.rows.filter (rowMatches tbl.cols cond)

/-- Modelled from the spec: result set of `SELECT * FROM` the table. -/
def selectAllRows (tbl : Table) : List (List PyVal) := tbl.rows

/-- Modelled from the spec: `cursor.fetchone()` — the first row of the
result set, or absent (source `Base.read_table` returns this). -/
def fetchone (rows : List (List PyVal)) : Option (List PyVal) := rows.head?

/-- Source `Base.read_all`: executes `SELECT * FROM` the table through
`read_table`, hence a fetch-one. -/
def read_all (table_name : String) (tbl : Table) : Option (List PyVal) :=
  fetchone (selectAllRows tbl)

/-- The non-reserved field entries of the metadata, in iteration order. -/
def nonReservedFields (md : MetaData) : List (String × PyType) :=
  md.fields.filter (fun kt => !(reservedKeys.contains kt.1))

/-- The non-reserved field names, which are the table's column names. -/
def nonReservedNames (md : MetaData) : List String :=
  (nonReservedFields md).map Prod.fst

/-- The `dict_mask` list of `callback_read`: one flag per non-reserved
field, true when the field is dict-typed. -/
def dictMask (md : MetaData) : List Bool :=
  (nonReservedFields md).map (fun kt => kt.2 == PyType.dict)

/-- Decode loop of `callback_read` (`enumerate(row)` with index `i`):
positions flagged by the mask go through `str_to_json`, the rest are kept
unchanged (`mask.getD i false` is Python's `i < len(mask) and mask[i]`). -/
def decodeRowAux (mask : List Bool) (i : Nat) : List PyVal → List PyVal
  | [] => []
  | v :: vs =>
    (if mask.getD i false then str_to_json v else v) :: decodeRowAux mask (i + 1) vs

/-- Row decoding of `callback_read`. -/
def decodeRow (md : MetaData) (row : List PyVal) : List PyVal :=
  decodeRowAux (dictMask md) 0 row

/-- Source `Base.callback_read`: primary-key condition, single-row fetch,
absent result on no match, decoded positional row otherwise. -/
def callback_read (table_name : String) (data : List (String × PyVal)) (md : MetaData)
    (tbl : Table) : Except PyErr (Option (List PyVal)) :=
  match get_primary_key_condition data md with
  | .error e => .error e
  | .ok (_, wparams) =>
    match fetchone (selectWhere tbl (md.primary_key.zip wparams)) with
    | Option.none => .ok Option.none
    | some row => .ok (some (decodeRow md row))

/-- The single-quote string used around VARCHAR default literals. -/
def squoteS : String := ⟨[squote]⟩

mutual

/-- Python `repr` of a value, as far as the default rendering of table
defaults needs it (string escaping inside `repr` is not modelled; the
source interpolates defaults with `str`). -/
def pyRepr : PyVal → String
  | .vNone => "None"
  | .vBool true => "True"
  | .vBool false => "False"
  | .vInt n => ⟨intChars n⟩
  | .vStr s => ⟨squote :: (s.data ++ [squote])⟩
  | .vList xs => ⟨'[' :: (pyReprList xs ++ [']'])⟩
  | .vDict kvs => ⟨lbrace :: (pyReprKvs kvs ++ [rbrace])⟩

/-- Comma-separated `repr`s of list elements. -/
def pyReprList : List PyVal → List Char
  | [] => []
  | [x] => (pyRepr x).data
  | x :: xs => (pyRepr x).data ++ (',' :: ' ' :: pyReprList xs)

/-- Comma-separated `repr`s of dict members. -/
def pyReprKvs : List (String × PyVal) → List Char
  | [] => []
  | [(k, v)] => (squote :: (k.data ++ [squote])) ++ (':' :: ' ' :: (pyRepr v).data)
  | (k, v) :: kvs =>
    ((squote :: (k.data ++ [squote])) ++ (':' :: ' ' :: (pyRepr v).data))
      ++ (',' :: ' ' :: pyReprKvs kvs)

end

/-- Python `str` of a value, as interpolated into the DDL f-string. -/
def pyStr : PyVal → String
  | .vStr s => s
  | v => pyRepr v

/-- One column clause of `create_table`: INT for integer fields with an
unquoted default literal, VARCHAR for the others with a single-quoted
default literal. -/
def colClause (md : MetaData) (k : String) (ty : PyType) : String :=
  match ty with
  | .int =>
    match md.defaults.lookup k with
    | some d => k ++ " INT DEFAULT " ++ pyStr d ++ ",\n"
    | Option.none => k ++ " INT,\n"
  | _ =>
    match md.defaults.lookup k with
    | some d => k ++ " VARCHAR DEFAULT " ++ squoteS ++ pyStr d ++ squoteS ++ ",\n"
    | Option.none => k ++ " VARCHAR,\n"

/-- The primary-key join loop of `create_table`, with its separate
singleton / last-element / middle cases. -/
def pkJoin : List String → String
  | [] => ""
  | [p] => p
  | p :: ps => p ++ "," ++ pkJoin ps

/-- Column-clause loop of `create_table` over the metadata keys in
iteration order, skipping reserved keys (the source appends to `q`). -/
def colClauses (md : MetaData) : List (String × PyType) → String
  | [] => ""
  | (k, ty) :: rest =>
    (if reservedKeys.contains k then "" else colClause md k ty) ++ colClauses md rest

/-- Source `Base.create_table`: the DDL statement text. -/
def create_table (table_name : String) (md : MetaData) : String :=
  "CREATE TABLE IF NOT EXISTS " ++ table_name ++ " (\n"
    ++ colClauses md md.fields
    ++ "PRIMARY KEY (" ++ pkJoin md.primary_key ++ ")\n)"

/-- Source `Base.delete_table`: unconditional drop, no `IF EXISTS`. -/
def delete_table (table_name : String) : String := "DROP TABLE " ++ table_name

/-- Stated from the specification's Schema Generator section, for
comparison with `create_table`: per non-reserved field in order, a
numeric column clause for integer fields and a text column clause
otherwise, the declared default appended unquoted for integer fields and
single-quoted otherwise, followed by a composite primary-key clause
listing the primary-key fields in order, comma-separated. -/
def specClause (md : MetaData) (k : String) (ty : PyType) : String :=
  match ty with
  | .int =>
    k ++ " INT"
      ++ (match md.defaults.lookup k with
          | some d => " DEFAULT " ++ pyStr d
          | Option.none => "") ++ ",\n"
  | _ =>
    k ++ " VARCHAR"
      ++ (match md.defaults.lookup k with
          | some d => " DEFAULT " ++ squoteS ++ pyStr d ++ squoteS
          | Option.none => "") ++ ",\n"

/-- Column clauses as the specification words them, one per listed field. -/
def specColClauses (md : MetaData) : List (String × PyType) → String
  | [] => ""
  | (k, ty) :: rest => specClause md k ty ++ specColClauses md rest

/-- Stated from the specification's Schema Generator section: one column
clause per non-reserved field in order, then the composite primary-key
clause with the primary-key fields comma-separated in declared order. -/
def create_table_spec (table_name : String) (md : MetaData) : String :=
  "CREATE TABLE IF NOT EXISTS " ++ table_name ++ " (\n"
    ++ specColClauses md (nonReservedFields md)
    ++ "PRIMARY KEY (" ++ String.intercalate "," md.primary_key ++ ")\n)"

/-- The metadata of the repository's own test table `users`. -/
def exampleMd : MetaData :=
  { fields := [("id", .int), ("name", .str), ("meta", .dict)],
    primary_key := ["id"], defaults := [] }

/-- A concrete `users` table holding one row, for instantiations. -/
def exampleTbl : Table :=
  { cols := ["id", "name", "meta"],
    rows := [[.vInt 1, .vStr "Bob", .vStr "[7]"]] }

/-- Input suffixes a printed JSON value can be followed by inside a larger
printed value: nothing, or a separator or closing delimiter. -/
def restOk : List Char → Bool
  | [] => true
  | c :: _ => c == ',' || c == ']' || c == rbrace

/-- Big-endian decimal digit characters of `n` (empty for zero), the
specification of `natCharsAux`. -/
def digitsRev (n : Nat) : List Char := ((Nat.digits 10 n).map digitChar).reverse

/-!  Theorems.  First the JSON codec round trip, then the per-claim
results. -/

theorem char_valid_nat (c : Char) :
    c.toNat < 55296 ∨ (57343 < c.toNat ∧ c.toNat < 1114112) := c.valid

theorem string_eta (s : String) : String.mk s.data = s := rfl

theorem digitChar_facts {d : Nat} (h : d < 10) :
    (digitChar d).isDigit = true ∧ isWsChar (digitChar d) = false ∧
    (digitChar d).toNat = 48 + d ∧
    digitChar d ≠ 'n' ∧ digitChar d ≠ 't' ∧ digitChar d ≠ 'f' ∧ digitChar d ≠ '"' ∧
    digitChar d ≠ '[' ∧ digitChar d ≠ lbrace ∧ digitChar d ≠ '-' ∧
    digitChar d ≠ ']' ∧ digitChar d ≠ rbrace ∧ digitChar d ≠ '\\' := by
  interval_cases d <;> decide

theorem parseDigits_stop {rest : List Char} (h : restOk rest = true) (a : Nat) :
    parseDigits a rest = (a, rest) := by
  cases rest with
  | nil => rfl
  | cons c r =>
    simp only [restOk, Bool.or_eq_true, beq_iff_eq] at h
    have hd : c.isDigit = false := by
      rcases h with (h | h) | h <;> subst h <;> decide
    simp [parseDigits, hd]

theorem skipWs_cons {c : Char} (h : isWsChar c = false) (r : List Char) :
    skipWs (c :: r) = c :: r := by
  simp [skipWs, h]

theorem natCharsAux_eq :
    ∀ (fuel n : Nat) (acc : List Char), n ≤ fuel →
      natCharsAux fuel n acc = digitsRev n ++ acc := by
  intro fuel
  induction fuel with
  | zero =>
    intro n acc h
    interval_cases n
    simp [natCharsAux, digitsRev]
  | succ f ih =>
    intro n acc h
    by_cases hn : n = 0
    · subst hn; simp [natCharsAux, digitsRev]
    · rw [natCharsAux, if_neg hn, ih (n / 10) _ (by omega)]
      have hd : Nat.digits 10 n = n % 10 :: Nat.digits 10 (n / 10) :=
        Nat.digits_def' (by norm_num) (Nat.pos_of_ne_zero hn)
      simp [digitsRev, hd]

theorem natChars_eq (n : Nat) : natChars n = if n = 0 then ['0'] else digitsRev n := by
  by_cases h : n = 0
  · simp [natChars, h]
  · simp [natChars, h, natCharsAux_eq n n [] le_rfl]

theorem foldl_digits_reverse (L : List Nat) (a : Nat) :
    L.reverse.foldl (fun x d => x * 10 + d) a = a * 10 ^ L.length + Nat.ofDigits 10 L := by
  induction L generalizing a with
  | nil => simp
  | cons d ds ih =>
    simp only [List.reverse_cons, List.foldl_append, ih, List.foldl_cons, List.foldl_nil,
      Nat.ofDigits_cons, List.length_cons, pow_succ]
    ring

theorem parseDigits_digits (ds : List Nat) (rest : List Char) (hrest : restOk rest = true) :
    ∀ (a : Nat), (∀ d ∈ ds, d < 10) →
      parseDigits a (ds.map digitChar ++ rest) = (ds.foldl (fun x d => x * 10 + d) a, rest) := by
  induction ds with
  | nil => intro a _; simpa using parseDigits_stop hrest a
  | cons d ds ih =>
    intro a hds
    have hd : d < 10 := hds d (by simp)
    obtain ⟨h1, -, h3, -⟩ := digitChar_facts hd
    have h48 : (digitChar d).toNat - 48 = d := by omega
    simp only [List.map_cons, List.cons_append, parseDigits, h1, if_true, h48, List.foldl_cons]
    exact ih _ (fun x hx => hds x (by simp [hx]))

theorem parseDigits_natChars (m : Nat) (rest : List Char) (hrest : restOk rest = true) :
    parseDigits 0 (natChars m ++ rest) = (m, rest) := by
  by_cases h0 : m = 0
  · subst h0
    have hd : '0'.isDigit = true := by decide
    have ht : '0'.toNat - 48 = 0 := by decide
    have h1 : parseDigits 0 ('0' :: rest) = (0, rest) := by
      simp [parseDigits, hd, ht, parseDigits_stop hrest]
    simpa [natChars] using h1
  · rw [natChars_eq, if_neg h0]
    have hrev : digitsRev m = ((Nat.digits 10 m).reverse).map digitChar := by
      simp [digitsRev]
    rw [hrev, parseDigits_digits _ _ hrest 0
      (fun d hd => Nat.digits_lt_base (by norm_num) (List.mem_reverse.mp hd)),
      foldl_digits_reverse]
    simp [Nat.ofDigits_digits]

theorem natChars_head (m : Nat) : ∃ d r, natChars m = digitChar d :: r ∧ d < 10 := by
  by_cases h0 : m = 0
  · subst h0
    refine ⟨0, [], ?_, by norm_num⟩
    simp [natChars]
    decide
  · rw [natChars_eq, if_neg h0]
    have hne : Nat.digits 10 m ≠ [] := Nat.digits_ne_nil_iff_ne_zero.mpr h0
    obtain ⟨d, L, hdL⟩ : ∃ d L, (Nat.digits 10 m).reverse = d :: L := by
      cases hrev : (Nat.digits 10 m).reverse with
      | nil =>
        exact absurd (by simpa using congrArg List.reverse hrev) hne
      | cons d L => exact ⟨d, L, rfl⟩
    refine ⟨d, L.map digitChar, ?_, ?_⟩
    · have hrev : Nat.digits 10 m = L.reverse ++ [d] := by
        have h2 := congrArg List.reverse hdL
        simpa using h2
      simp [digitsRev, hrev]
    · have hd : d ∈ (Nat.digits 10 m).reverse := by simp [hdL]
      exact Nat.digits_lt_base (by norm_num) (List.mem_reverse.mp hd)

theorem hexVal_hexDigitChar {d : Nat} (h : d < 16) : hexVal (hexDigitChar d) = some d := by
  interval_cases d <;> decide

theorem hexVal4_hex4 {n : Nat} (h : n < 65536) :
    hexVal4 (hexDigitChar (n / 4096 % 16)) (hexDigitChar (n / 256 % 16))
      (hexDigitChar (n / 16 % 16)) (hexDigitChar (n % 16)) = some n := by
  rw [hexVal4, hexVal_hexDigitChar (show n / 4096 % 16 < 16 by omega),
    hexVal_hexDigitChar (show n / 256 % 16 < 16 by omega),
    hexVal_hexDigitChar (show n / 16 % 16 < 16 by omega),
    hexVal_hexDigitChar (show n % 16 < 16 by omega)]
  simp only [Option.some.injEq]
  omega

theorem unescEsc_short {e c2 : Char} (he : e ≠ 'u') (hu : unescapeChar e = some c2)
    (r : List Char) : unescEsc (e :: r) = some (c2, r) := by
  simp [unescEsc, if_neg he, hu]

theorem unescEsc_u {n : Nat} (h9 : n < 65536) (hs1 : ¬(55296 ≤ n ∧ n ≤ 56319))
    (hs2 : ¬(56320 ≤ n ∧ n ≤ 57343)) (r : List Char) :
    unescEsc ('u' :: (hex4 n ++ r)) = some (Char.ofNat n, r) := by
  simp only [hex4, List.cons_append, List.nil_append]
  simp [unescEsc, unescU, hexVal4_hex4 h9, hs1, hs2]

theorem unescEsc_pair {n m : Nat} (hn : n < 65536) (hm : m < 65536)
    (hs1 : 55296 ≤ n ∧ n ≤ 56319) (hs2 : 56320 ≤ m ∧ m ≤ 57343) (r : List Char) :
    unescEsc ('u' :: (hex4 n ++ ('\\' :: 'u' :: (hex4 m ++ r)))) =
      some (Char.ofNat (65536 + (n - 55296) * 1024 + (m - 56320)), r) := by
  simp only [hex4, List.cons_append, List.nil_append]
  simp [unescEsc, unescU, unescLow, hexVal4_hex4 hn, hexVal4_hex4 hm, hs1, hs2]

theorem psbF_quote (f : Nat) (r : List Char) :
    parseStringBodyF (f + 1) ('"' :: r) = some ([], r) := by
  rw [parseStringBodyF]
  simp

theorem psbF_plain {c : Char} (h1 : c ≠ '"') (h2 : c ≠ '\\') (h3 : ¬ c.toNat < 32)
    (f : Nat) (r : List Char) :
    parseStringBodyF (f + 1) (c :: r) =
      Option.map (fun p => (c :: p.1, p.2)) (parseStringBodyF f r) := by
  rw [parseStringBodyF, if_neg h1, if_neg h2, if_neg h3]
  rcases parseStringBodyF f r with - | ⟨cs, r5⟩ <;> rfl

theorem psbF_esc {c2 : Char} {r r2 : List Char} (hu : unescEsc r = some (c2, r2))
    (f : Nat) :
    parseStringBodyF (f + 1) ('\\' :: r) =
      Option.map (fun p => (c2 :: p.1, p.2)) (parseStringBodyF f r2) := by
  rw [parseStringBodyF]
  simp only [reduceIte, hu]
  rcases parseStringBodyF f r2 with - | ⟨cs, r5⟩ <;> rfl

theorem escChar_length_pos (c : Char) : 0 < (escChar c).length := by
  rw [escChar]
  split_ifs <;> simp [hex4]

theorem psbF_escBody : ∀ (cs : List Char) (f : Nat) (rest : List Char),
    (escBody cs).length < f →
    parseStringBodyF f (escBody cs ++ rest) = some (cs, rest) := by
  intro cs
  induction cs with
  | nil =>
    intro f rest hf
    obtain ⟨f2, rfl⟩ : ∃ f2, f = f2 + 1 := ⟨f - 1, by simp [escBody] at hf; omega⟩
    exact psbF_quote f2 rest
  | cons c cs ih =>
    intro f rest hf
    have hlen : (escChar c).length + (escBody cs).length < f := by
      simpa [escBody] using hf
    have hpos := escChar_length_pos c
    obtain ⟨f2, rfl⟩ : ∃ f2, f = f2 + 1 := ⟨f - 1, by omega⟩
    have hbody : escBody (c :: cs) ++ rest = escChar c ++ (escBody cs ++ rest) := by
      simp [escBody]
    rw [hbody]
    have hih : parseStringBodyF f2 (escBody cs ++ rest) = some (cs, rest) := by
      apply ih
      omega
    by_cases h1 : c = '"'
    · subst h1
      show parseStringBodyF (f2 + 1) ('\\' :: '"' :: (escBody cs ++ rest)) = _
      rw [psbF_esc (unescEsc_short (by decide) (by decide : unescapeChar '"' = some '"') _), hih]
      rfl
    by_cases h2 : c = '\\'
    · subst h2
      show parseStringBodyF (f2 + 1) ('\\' :: '\\' :: (escBody cs ++ rest)) = _
      rw [psbF_esc (unescEsc_short (by decide) (by decide : unescapeChar '\\' = some '\\') _), hih]
      rfl
    by_cases h3 : c = Char.ofNat 8
    · subst h3
      show parseStringBodyF (f2 + 1) ('\\' :: 'b' :: (escBody cs ++ rest)) = _
      rw [psbF_esc (unescEsc_short (by decide)
        (by decide : unescapeChar 'b' = some (Char.ofNat 8)) _), hih]
      rfl
    by_cases h4 : c = Char.ofNat 12
    · subst h4
      show parseStringBodyF (f2 + 1) ('\\' :: 'f' :: (escBody cs ++ rest)) = _
      rw [psbF_esc (unescEsc_short (by decide)
        (by decide : unescapeChar 'f' = some (Char.ofNat 12)) _), hih]
      rfl
    by_cases h5 : c = '\n'
    · subst h5
      show parseStringBodyF (f2 + 1) ('\\' :: 'n' :: (escBody cs ++ rest)) = _
      rw [psbF_esc (unescEsc_short (by decide) (by decide : unescapeChar 'n' = some '\n') _), hih]
      rfl
    by_cases h6 : c = '\r'
    · subst h6
      show parseStringBodyF (f2 + 1) ('\\' :: 'r' :: (escBody cs ++ rest)) = _
      rw [psbF_esc (unescEsc_short (by decide) (by decide : unescapeChar 'r' = some '\r') _), hih]
      rfl
    by_cases h7 : c = '\t'
    · subst h7
      show parseStringBodyF (f2 + 1) ('\\' :: 't' :: (escBody cs ++ rest)) = _
      rw [psbF_esc (unescEsc_short (by decide) (by decide : unescapeChar 't' = some '\t') _), hih]
      rfl
    by_cases h8 : 32 ≤ c.toNat ∧ c.toNat ≤ 126
    · have hesc : escChar c = [c] := by
        rw [escChar, if_neg h1, if_neg h2, if_neg h3, if_neg h4, if_neg h5, if_neg h6,
          if_neg h7, if_pos h8]
      rw [hesc]
      show parseStringBodyF (f2 + 1) (c :: (escBody cs ++ rest)) = _
      rw [psbF_plain h1 h2 (by omega) f2 _, hih]
      rfl
    by_cases h9 : c.toNat < 65536
    · have hs1 : ¬(55296 ≤ c.toNat ∧ c.toNat ≤ 56319) := by
        rcases char_valid_nat c with h | h <;> omega
      have hs2 : ¬(56320 ≤ c.toNat ∧ c.toNat ≤ 57343) := by
        rcases char_valid_nat c with h | h <;> omega
      have hesc : escChar c = '\\' :: 'u' :: hex4 c.toNat := by
        rw [escChar, if_neg h1, if_neg h2, if_neg h3, if_neg h4, if_neg h5, if_neg h6,
          if_neg h7, if_neg h8, if_pos h9]
      rw [hesc]
      show parseStringBodyF (f2 + 1)
        ('\\' :: ('u' :: (hex4 c.toNat ++ (escBody cs ++ rest)))) = _
      rw [psbF_esc (unescEsc_u h9 hs1 hs2 _), hih, Char.ofNat_toNat]
      rfl
    · have hval : c.toNat < 1114112 := by
        rcases char_valid_nat c with h | h <;> omega
      have hi9 : 55296 + (c.toNat - 65536) / 1024 < 65536 := by omega
      have lo9 : 56320 + (c.toNat - 65536) % 1024 < 65536 := by omega
      have hiS : 55296 ≤ 55296 + (c.toNat - 65536) / 1024 ∧
          55296 + (c.toNat - 65536) / 1024 ≤ 56319 := by omega
      have loS : 56320 ≤ 56320 + (c.toNat - 65536) % 1024 ∧
          56320 + (c.toNat - 65536) % 1024 ≤ 57343 := by omega
      have hesc : escChar c = '\\' :: 'u' :: (hex4 (55296 + (c.toNat - 65536) / 1024) ++
          ('\\' :: 'u' :: hex4 (56320 + (c.toNat - 65536) % 1024))) := by
        rw [escChar, if_neg h1, if_neg h2, if_neg h3, if_neg h4, if_neg h5, if_neg h6,
          if_neg h7, if_neg h8, if_neg h9]
      rw [hesc]
      show parseStringBodyF (f2 + 1)
        ('\\' :: ('u' :: (hex4 (55296 + (c.toNat - 65536) / 1024) ++
          ('\\' :: 'u' :: (hex4 (56320 + (c.toNat - 65536) % 1024) ++
            (escBody cs ++ rest)))))) = _
      rw [psbF_esc (unescEsc_pair hi9 lo9 hiS loS _), hih]
      have hcomb : 65536 + (55296 + (c.toNat - 65536) / 1024 - 55296) * 1024 +
          (56320 + (c.toNat - 65536) % 1024 - 56320) = c.toNat := by omega
      rw [hcomb, Char.ofNat_toNat]
      rfl

theorem parseStringBody_escBody (cs rest : List Char) :
    parseStringBody (escBody cs ++ rest) = some (cs, rest) := by
  apply psbF_escBody
  simp only [List.length_append]
  omega

theorem dump_vNone : dumpChars .vNone = ['n', 'u', 'l', 'l'] := by simp [dumpChars]

theorem dump_vTrue : dumpChars (.vBool true) = ['t', 'r', 'u', 'e'] := by simp [dumpChars]

theorem dump_vFalse : dumpChars (.vBool false) = ['f', 'a', 'l', 's', 'e'] := by
  simp [dumpChars]

theorem dump_vInt (n : Int) : dumpChars (.vInt n) = intChars n := by simp [dumpChars]

theorem dump_vStr (s : String) : dumpChars (.vStr s) = '"' :: escBody s.data := by
  simp [dumpChars]

theorem dump_vList_nil : dumpChars (.vList []) = ['[', ']'] := by simp [dumpChars]

theorem dump_vList_cons (x : PyVal) (xs : List PyVal) :
    dumpChars (.vList (x :: xs)) = '[' :: (dumpChars x ++ listTailChars xs) := by
  simp [dumpChars]

theorem dump_vDict_nil : dumpChars (.vDict []) = [lbrace, rbrace] := by simp [dumpChars]

theorem dump_vDict_cons (k : String) (v : PyVal) (kvs : List (String × PyVal)) :
    dumpChars (.vDict ((k, v) :: kvs)) = lbrace :: (memberChars k v ++ dictTailChars kvs) := by
  simp [dumpChars]

theorem ltc_nil : listTailChars [] = [']'] := by simp [listTailChars]

theorem ltc_cons (x : PyVal) (xs : List PyVal) :
    listTailChars (x :: xs) = ',' :: ' ' :: (dumpChars x ++ listTailChars xs) := by
  simp [listTailChars]

theorem dtc_nil : dictTailChars [] = [rbrace] := by simp [dictTailChars]

theorem dtc_cons (k : String) (v : PyVal) (kvs : List (String × PyVal)) :
    dictTailChars ((k, v) :: kvs) = ',' :: ' ' :: (memberChars k v ++ dictTailChars kvs) := by
  simp [dictTailChars]

theorem memberChars_def (k : String) (v : PyVal) :
    memberChars k v = '"' :: (escBody k.data ++ (':' :: ' ' :: dumpChars v)) := by
  simp [memberChars]

theorem natChars_ne_nil (m : Nat) : natChars m ≠ [] := by
  obtain ⟨d, r, h, -⟩ := natChars_head m
  simp [h]

theorem dumpChars_head (v : PyVal) :
    ∃ c r, dumpChars v = c :: r ∧ isWsChar c = false ∧ c ≠ ']' ∧ c ≠ rbrace := by
  cases v with
  | vNone => exact ⟨'n', _, dump_vNone, by decide, by decide, by decide⟩
  | vBool b =>
    cases b with
    | true => exact ⟨'t', _, dump_vTrue, by decide, by decide, by decide⟩
    | false => exact ⟨'f', _, dump_vFalse, by decide, by decide, by decide⟩
  | vInt n =>
    rw [dump_vInt, intChars]
    by_cases hn : n < 0
    · exact ⟨'-', _, by rw [if_pos hn], by decide, by decide, by decide⟩
    · rw [if_neg hn]
      obtain ⟨d, r, h, hd⟩ := natChars_head n.toNat
      obtain ⟨-, h2, -, -, -, -, -, -, -, -, h11, h12, -⟩ := digitChar_facts hd
      exact ⟨digitChar d, r, h, h2, h11, h12⟩
  | vStr s => exact ⟨'"', _, dump_vStr s, by decide, by decide, by decide⟩
  | vList xs =>
    cases xs with
    | nil => exact ⟨'[', _, dump_vList_nil, by decide, by decide, by decide⟩
    | cons x xs => exact ⟨'[', _, dump_vList_cons x xs, by decide, by decide, by decide⟩
  | vDict kvs =>
    cases kvs with
    | nil => exact ⟨lbrace, _, dump_vDict_nil, by decide, by decide, by decide⟩
    | cons kv kvs =>
      exact ⟨lbrace, _, by rw [← dump_vDict_cons kv.1 kv.2 kvs], by decide, by decide, by decide⟩

theorem dumpChars_length_pos (v : PyVal) : 0 < (dumpChars v).length := by
  obtain ⟨c, r, h, -, -, -⟩ := dumpChars_head v
  simp [h]

theorem listTailChars_length_pos (xs : List PyVal) : 0 < (listTailChars xs).length := by
  cases xs with
  | nil => simp [ltc_nil]
  | cons x xs => simp [ltc_cons]

theorem dictTailChars_length_pos (kvs : List (String × PyVal)) :
    0 < (dictTailChars kvs).length := by
  cases kvs with
  | nil => simp [dtc_nil]
  | cons kv kvs => rw [← Prod.mk.eta (p := kv), dtc_cons]; simp

theorem restOk_listTail (xs : List PyVal) (r : List Char) :
    restOk (listTailChars xs ++ r) = true := by
  cases xs with
  | nil => rw [ltc_nil]; rfl
  | cons x xs => rw [ltc_cons]; rfl

theorem restOk_dictTail (kvs : List (String × PyVal)) (r : List Char) :
    restOk (dictTailChars kvs ++ r) = true := by
  cases kvs with
  | nil => rw [dtc_nil]; simp [restOk]
  | cons kv kvs => rw [← Prod.mk.eta (p := kv), dtc_cons]; rfl

theorem parseValue_ws (f : Nat) (s : List Char) :
    parseValue (f + 1) (' ' :: s) = parseValue (f + 1) s := by
  have h : skipWs (' ' :: s) = skipWs s := by simp [skipWs, isWsChar]
  rw [parseValue, parseValue, h]

theorem parseMember_ws (f : Nat) (s : List Char) :
    parseMember (f + 1) (' ' :: s) = parseMember (f + 1) s := by
  have h : skipWs (' ' :: s) = skipWs s := by simp [skipWs, isWsChar]
  rw [parseMember, parseMember, h]

theorem pv_nat (f : Nat) (m : Nat) (rest : List Char) (hrest : restOk rest = true) :
    parseValue (f + 1) (natChars m ++ rest) = some (.vInt (m : Int), rest) := by
  obtain ⟨d, rr, hhead, hd⟩ := natChars_head m
  obtain ⟨h1, h2, -, h4, h5, h6, h7, h8, h9, h10, -, -, -⟩ := digitChar_facts hd
  have hsplit : natChars m ++ rest = digitChar d :: (rr ++ rest) := by rw [hhead]; rfl
  rw [hsplit, parseValue, skipWs_cons h2]
  dsimp only
  rw [if_neg h4, if_neg h5, if_neg h6, if_neg h7,
    if_neg h8, if_neg h9, if_neg h10, if_pos h1, ← hsplit,
    parseDigits_natChars m rest hrest]

theorem pv_negnum (f : Nat) (m : Nat) (rest : List Char) (hrest : restOk rest = true) :
    parseValue (f + 1) ('-' :: (natChars m ++ rest)) = some (.vInt (-(m : Int)), rest) := by
  obtain ⟨d, rr, hhead, hd⟩ := natChars_head m
  obtain ⟨h1, -, -, -, -, -, -, -, -, -, -, -, -⟩ := digitChar_facts hd
  have hsplit : natChars m ++ rest = digitChar d :: (rr ++ rest) := by rw [hhead]; rfl
  rw [parseValue, skipWs_cons (by decide)]
  dsimp only
  rw [if_neg (by decide : ¬('-' : Char) = 'n'), if_neg (by decide : ¬('-' : Char) = 't'),
    if_neg (by decide : ¬('-' : Char) = 'f'), if_neg (by decide : ¬('-' : Char) = '"'),
    if_neg (by decide : ¬('-' : Char) = '['), if_neg (by decide : ¬('-' : Char) = lbrace),
    if_pos (rfl : ('-' : Char) = '-')]
  rw [hsplit]
  dsimp only
  rw [if_pos h1, ← hsplit, parseDigits_natChars m rest hrest]

theorem pv_string (f : Nat) (s : String) (rest : List Char) :
    parseValue (f + 1) (('"' :: escBody s.data) ++ rest) = some (.vStr s, rest) := by
  rw [List.cons_append, parseValue, skipWs_cons (by decide)]
  dsimp only
  simp only [reduceIte]
  rw [parseStringBody_escBody]
  rfl

theorem pv_null (f : Nat) (rest : List Char) :
    parseValue (f + 1) (['n', 'u', 'l', 'l'] ++ rest) = some (.vNone, rest) := by
  rw [parseValue]
  rfl

theorem pv_true (f : Nat) (rest : List Char) :
    parseValue (f + 1) (['t', 'r', 'u', 'e'] ++ rest) = some (.vBool true, rest) := by
  rw [parseValue]
  rfl

theorem pv_false (f : Nat) (rest : List Char) :
    parseValue (f + 1) (['f', 'a', 'l', 's', 'e'] ++ rest) = some (.vBool false, rest) := by
  rw [parseValue]
  rfl

theorem pv_list_nil (f : Nat) (rest : List Char) :
    parseValue (f + 1) (['[', ']'] ++ rest) = some (.vList [], rest) := by
  rw [parseValue]
  rfl

theorem pv_dict_nil (f : Nat) (rest : List Char) :
    parseValue (f + 1) ([lbrace, rbrace] ++ rest) = some (.vDict [], rest) := by
  rw [parseValue]
  rfl

theorem escBody_length_pos (cs : List Char) : 0 < (escBody cs).length := by
  cases cs with
  | nil => simp [escBody]
  | cons c cs =>
    have := escChar_length_pos c
    simp [escBody]
    omega

theorem parse_sound : ∀ (f : Nat),
    (∀ (v : PyVal) (rest : List Char), (dumpChars v).length < f → restOk rest = true →
      parseValue f (dumpChars v ++ rest) = some (v, rest)) ∧
    (∀ (xs : List PyVal) (rest : List Char), (listTailChars xs).length < f →
      restOk rest = true → parseListTail f (listTailChars xs ++ rest) = some (xs, rest)) ∧
    (∀ (k : String) (v : PyVal) (rest : List Char), (memberChars k v).length < f →
      restOk rest = true → parseMember f (memberChars k v ++ rest) = some ((k, v), rest)) ∧
    (∀ (kvs : List (String × PyVal)) (rest : List Char), (dictTailChars kvs).length < f →
      restOk rest = true → parseDictTail f (dictTailChars kvs ++ rest) = some (kvs, rest)) := by
  intro f
  induction f using Nat.strong_induction_on with
  | _ f IH =>
  refine ⟨?_, ?_, ?_, ?_⟩
  · intro v rest hlen hrest
    have hf : 0 < f := Nat.lt_of_le_of_lt (Nat.zero_le _) hlen
    obtain ⟨f2, rfl⟩ : ∃ f2, f = f2 + 1 := ⟨f - 1, by omega⟩
    cases v with
    | vNone => rw [dump_vNone]; exact pv_null f2 rest
    | vBool b =>
      cases b with
      | false => rw [dump_vFalse]; exact pv_false f2 rest
      | true => rw [dump_vTrue]; exact pv_true f2 rest
    | vInt n =>
      rw [dump_vInt, intChars]
      by_cases hn : n < 0
      · rw [if_pos hn, List.cons_append, pv_negnum f2 n.natAbs rest hrest,
          show -((n.natAbs : Nat) : Int) = n by omega]
      · rw [if_neg hn, pv_nat f2 n.toNat rest hrest,
          show ((n.toNat : Nat) : Int) = n by omega]
    | vStr s => rw [dump_vStr]; exact pv_string f2 s rest
    | vList xs =>
      cases xs with
      | nil => rw [dump_vList_nil]; exact pv_list_nil f2 rest
      | cons x xs =>
        rw [dump_vList_cons] at hlen ⊢
        simp only [List.length_cons, List.length_append] at hlen
        have hdx := dumpChars_length_pos x
        have hlt := listTailChars_length_pos xs
        obtain ⟨IH1, IH2, -, -⟩ := IH f2 (by omega)
        obtain ⟨cx, rx, hcx, hcxw, hcxb, -⟩ := dumpChars_head x
        rw [List.cons_append, List.append_assoc, parseValue, skipWs_cons (by decide)]
        dsimp only
        rw [if_neg (by decide : ¬('[' : Char) = 'n'),
          if_neg (by decide : ¬('[' : Char) = 't'),
          if_neg (by decide : ¬('[' : Char) = 'f'),
          if_neg (by decide : ¬('[' : Char) = '"'),
          if_pos (rfl : ('[' : Char) = '[')]
        rw [hcx]
        simp only [List.cons_append]
        rw [skipWs_cons hcxw, if_neg (by simp [hcxb])]
        rw [← List.cons_append, ← hcx,
          IH1 x (listTailChars xs ++ rest) (by omega) (restOk_listTail xs rest)]
        dsimp only
        rw [IH2 xs rest (by omega) hrest]
    | vDict kvs =>
      cases kvs with
      | nil => rw [dump_vDict_nil]; exact pv_dict_nil f2 rest
      | cons kv kvs =>
        obtain ⟨k, v⟩ := kv
        rw [dump_vDict_cons] at hlen ⊢
        simp only [List.length_cons, List.length_append] at hlen
        have hmc : 4 ≤ (memberChars k v).length := by
          have h1 := escBody_length_pos k.data
          have h2 := dumpChars_length_pos v
          rw [memberChars_def]
          simp only [List.length_cons, List.length_append]
          omega
        have hdt := dictTailChars_length_pos kvs
        obtain ⟨-, -, IH3, IH4⟩ := IH f2 (by omega)
        rw [List.cons_append, List.append_assoc, parseValue, skipWs_cons (by decide)]
        dsimp only
        rw [if_neg (by decide : ¬(lbrace : Char) = 'n'),
          if_neg (by decide : ¬(lbrace : Char) = 't'),
          if_neg (by decide : ¬(lbrace : Char) = 'f'),
          if_neg (by decide : ¬(lbrace : Char) = '"'),
          if_neg (by decide : ¬(lbrace : Char) = '['),
          if_pos (rfl : (lbrace : Char) = lbrace)]
        rw [memberChars_def]
        simp only [List.cons_append]
        rw [skipWs_cons (by decide), if_neg (by rw [List.head?_cons]; decide)]
        rw [← List.cons_append, ← memberChars_def,
          IH3 k v (dictTailChars kvs ++ rest) (by omega) (restOk_dictTail kvs rest)]
        dsimp only
        rw [IH4 kvs rest (by omega) hrest]
  · intro xs rest hlen hrest
    have hf : 0 < f := Nat.lt_of_le_of_lt (Nat.zero_le _) hlen
    obtain ⟨f2, rfl⟩ : ∃ f2, f = f2 + 1 := ⟨f - 1, by omega⟩
    cases xs with
    | nil =>
      rw [ltc_nil]
      rfl
    | cons x xs =>
      rw [ltc_cons] at hlen ⊢
      simp only [List.length_cons, List.length_append] at hlen
      have hdx := dumpChars_length_pos x
      have hlt := listTailChars_length_pos xs
      obtain ⟨IH1, IH2, -, -⟩ := IH f2 (by omega)
      obtain ⟨f3, hf3⟩ : ∃ f3, f2 = f3 + 1 := ⟨f2 - 1, by omega⟩
      simp only [List.cons_append, List.append_assoc]
      rw [parseListTail, skipWs_cons (by decide)]
      simp only [List.head?_cons, List.tail_cons]
      rw [if_neg (by decide : ¬((some ',' : Option Char) = some ']')), if_pos trivial]
      rw [hf3, parseValue_ws f3, ← hf3,
        IH1 x (listTailChars xs ++ rest) (by omega) (restOk_listTail xs rest)]
      dsimp only
      rw [IH2 xs rest (by omega) hrest]
  · intro k v rest hlen hrest
    have hf : 0 < f := Nat.lt_of_le_of_lt (Nat.zero_le _) hlen
    obtain ⟨f2, rfl⟩ : ∃ f2, f = f2 + 1 := ⟨f - 1, by omega⟩
    rw [memberChars_def] at hlen ⊢
    simp only [List.length_cons, List.length_append] at hlen
    have hde := escBody_length_pos k.data
    have hdv := dumpChars_length_pos v
    obtain ⟨IH1, -, -, -⟩ := IH f2 (by omega)
    obtain ⟨f3, hf3⟩ : ∃ f3, f2 = f3 + 1 := ⟨f2 - 1, by omega⟩
    simp only [List.cons_append, List.append_assoc]
    rw [parseMember, skipWs_cons (by decide)]
    simp only [List.head?_cons, List.tail_cons]
    rw [if_pos trivial]
    rw [parseStringBody_escBody]
    dsimp only
    rw [skipWs_cons (by decide)]
    simp only [List.head?_cons, List.tail_cons]
    rw [if_pos trivial]
    rw [hf3, parseValue_ws f3, ← hf3, IH1 v rest (by omega) hrest]
  · intro kvs rest hlen hrest
    have hf : 0 < f := Nat.lt_of_le_of_lt (Nat.zero_le _) hlen
    obtain ⟨f2, rfl⟩ : ∃ f2, f = f2 + 1 := ⟨f - 1, by omega⟩
    cases kvs with
    | nil =>
      rw [dtc_nil]
      rfl
    | cons kv kvs =>
      obtain ⟨k, v⟩ := kv
      rw [dtc_cons] at hlen ⊢
      simp only [List.length_cons, List.length_append] at hlen
      have hmc : 4 ≤ (memberChars k v).length := by
        have h1 := escBody_length_pos k.data
        have h2 := dumpChars_length_pos v
        rw [memberChars_def]
        simp only [List.length_cons, List.length_append]
        omega
      have hdt := dictTailChars_length_pos kvs
      obtain ⟨-, -, IH3, IH4⟩ := IH f2 (by omega)
      obtain ⟨f3, hf3⟩ : ∃ f3, f2 = f3 + 1 := ⟨f2 - 1, by omega⟩
      simp only [List.cons_append, List.append_assoc]
      rw [parseDictTail, skipWs_cons (by decide)]
      simp only [List.head?_cons, List.tail_cons]
      rw [if_neg (by decide : ¬((some ',' : Option Char) = some rbrace)), if_pos trivial]
      rw [hf3, parseMember_ws f3, ← hf3,
        IH3 k v (dictTailChars kvs ++ rest) (by omega) (restOk_dictTail kvs rest)]
      dsimp only
      rw [IH4 kvs rest (by omega) hrest]

theorem loads_dumps (v : PyVal) : loads (dumps v) = some v := by
  have h := (parse_sound ((dumpChars v).length + 1)).1 v [] (by omega) rfl
  rw [List.append_nil] at h
  rw [loads, show (dumps v).data = dumpChars v from rfl, h]
  rfl

theorem str_to_json_json_to_str (v : PyVal) : str_to_json (.vStr (json_to_str v)) = v := by
  rw [str_to_json, json_to_str, loads_dumps]

theorem intercalate_go_acc : ∀ (qs : List String) (a b s : String),
    String.intercalate.go (a ++ b) s qs = a ++ String.intercalate.go b s qs := by
  intro qs
  induction qs with
  | nil =>
    intro a b s
    rw [String.intercalate.go, String.intercalate.go]
  | cons q qs ih =>
    intro a b s
    rw [String.intercalate.go, String.intercalate.go]
    calc String.intercalate.go (a ++ b ++ s ++ q) s qs
        = String.intercalate.go (a ++ (b ++ s ++ q)) s qs := by
          rw [show a ++ b ++ s ++ q = a ++ (b ++ s ++ q) from by
            simp [String.append_assoc]]
      _ = a ++ String.intercalate.go (b ++ s ++ q) s qs := ih a (b ++ s ++ q) s

theorem intercalate_cons_cons (p q : String) (qs : List String) :
    String.intercalate "," (p :: q :: qs) = p ++ "," ++ String.intercalate "," (q :: qs) := by
  show String.intercalate.go p "," (q :: qs) = p ++ "," ++ String.intercalate.go q "," qs
  rw [String.intercalate.go, intercalate_go_acc qs (p ++ ",") q ","]

theorem pkJoin_eq_intercalate : ∀ ps : List String, pkJoin ps = String.intercalate "," ps := by
  intro ps
  induction ps with
  | nil => rfl
  | cons p ps ih =>
    cases ps with
    | nil => rfl
    | cons q qs =>
      rw [pkJoin, ih, intercalate_cons_cons]
      simp

theorem colClause_spec (md : MetaData) (k : String) (ty : PyType) :
    colClause md k ty = specClause md k ty := by
  have hid : (" INT DEFAULT " : String) = " INT" ++ " DEFAULT " := rfl
  have hvd : (" VARCHAR DEFAULT " : String) = " VARCHAR" ++ " DEFAULT " := rfl
  have hic : (" INT,\n" : String) = " INT" ++ ",\n" := rfl
  have hvc : (" VARCHAR,\n" : String) = " VARCHAR" ++ ",\n" := rfl
  have he : ("" : String) ++ ",\n" = ",\n" := rfl
  cases ty with
  | int =>
    rcases h : md.defaults.lookup k with - | d
    · simp only [colClause, specClause, h, String.append_assoc]
      rw [hic]
      simp [he]
    · simp only [colClause, specClause, h, String.append_assoc]
      rw [hid, String.append_assoc]
  | str =>
    rcases h : md.defaults.lookup k with - | d
    · simp only [colClause, specClause, h, String.append_assoc]
      rw [hvc]
      simp [he]
    · simp only [colClause, specClause, h, String.append_assoc]
      rw [hvd, String.append_assoc]
  | dict =>
    rcases h : md.defaults.lookup k with - | d
    · simp only [colClause, specClause, h, String.append_assoc]
      rw [hvc]
      simp [he]
    · simp only [colClause, specClause, h, String.append_assoc]
      rw [hvd, String.append_assoc]

theorem colClauses_eq (md : MetaData) : ∀ fields : List (String × PyType),
    colClauses md fields =
      specColClauses md (fields.filter (fun kt => !(reservedKeys.contains kt.1))) := by
  intro fields
  induction fields with
  | nil => rfl
  | cons kt rest ih =>
    obtain ⟨k, ty⟩ := kt
    rw [colClauses, List.filter_cons]
    by_cases h : k ∈ reservedKeys
    · rw [if_pos (by simp [h]), ih, if_neg (by simp [h])]
      rfl
    · rw [if_neg (by simp [h]), ih, if_pos (by simp [h]), specColClauses, colClause_spec]

/-- C5: for every table name and metadata with at least one primary-key
field, the generated create statement is the specification's statement —
per non-reserved field in iteration order an INT clause for integer
fields and a VARCHAR clause for text and structured-document fields,
defaults unquoted for INT and single-quoted for VARCHAR, followed by the
composite primary-key clause with all primary-key fields comma-separated
in declared order, under CREATE TABLE IF NOT EXISTS — while the drop
statement is an unconditional DROP TABLE. -/
theorem C5_create_table (table_name : String) (md : MetaData)
    (hpk : md.primary_key ≠ []) :
    create_table table_name md = create_table_spec table_name md ∧
    delete_table table_name = "DROP TABLE " ++ table_name := by
  refine ⟨?_, rfl⟩
  rw [create_table, create_table_spec, colClauses_eq, pkJoin_eq_intercalate]
  rfl

theorem C5_create_table_witness :
    exampleMd.primary_key ≠ [] ∧
    create_table "users" exampleMd = create_table_spec "users" exampleMd ∧
    delete_table "users" = "DROP TABLE " ++ "users" :=
  ⟨by decide, C5_create_table "users" exampleMd (by decide)⟩

/-- C3: read-all performs a fetch-one — it returns exactly the first
stored row (or absent), never a multi-row result, regardless of how many
rows the table contains. -/
theorem C3_read_all_fetchone (table_name : String) (tbl : Table) :
    read_all table_name tbl = tbl.rows.head? ∧
    ∀ r, read_all table_name tbl = some r → r ∈ tbl.rows := by
  refine ⟨rfl, ?_⟩
  intro r h
  rw [read_all, fetchone, selectAllRows] at h
  exact List.mem_of_mem_head? (Option.mem_def.mpr h)

theorem C3_read_all_fetchone_witness :
    read_all "users" exampleTbl = exampleTbl.rows.head? ∧
    [PyVal.vInt 1, PyVal.vStr "Bob", PyVal.vStr "[7]"] ∈ exampleTbl.rows :=
  ⟨(C3_read_all_fetchone "users" exampleTbl).1,
    (C3_read_all_fetchone "users" exampleTbl).2 _ rfl⟩

/-- C4: for every structured-document value representable in the
intermediate JSON text encoding (the `PyVal` universe), deserializing its
serialization returns an equal value: `str_to_json (json_to_str v) = v`. -/
theorem C4_json_roundtrip (v : PyVal) : str_to_json (.vStr (json_to_str v)) = v :=
  str_to_json_json_to_str v

/-- C7: an absent (None) input to the structured-document decoder yields
an absent value, and so does any string the text encoding cannot parse —
no error is raised (the decoder is total). -/
theorem C7_soft_decode :
    str_to_json .vNone = .vNone ∧
    ∀ s : String, loads s = Option.none → str_to_json (.vStr s) = .vNone := by
  refine ⟨rfl, ?_⟩
  intro s h
  rw [str_to_json, h]

theorem C7_soft_decode_witness :
    str_to_json (PyVal.vStr "[1,") = PyVal.vNone :=
  C7_soft_decode.2 "[1," rfl

theorem lookup_eq_none_of_not_mem {β : Type} :
    ∀ (l : List (String × β)) (k : String),
      k ∉ l.map Prod.fst → l.lookup k = Option.none := by
  intro l
  induction l with
  | nil => intro k h; rfl
  | cons kv rest ih =>
    intro k h
    obtain ⟨k2, v⟩ := kv
    simp only [List.map_cons, List.mem_cons, not_or] at h
    have hne : (k == k2) = false := by simp [h.1]
    simp [List.lookup, hne, ih k h.2]

theorem lookup_of_nodup_mem {β : Type} :
    ∀ (l : List (String × β)), (l.map Prod.fst).Nodup →
      ∀ (k : String) (t : β), (k, t) ∈ l → l.lookup k = some t := by
  intro l
  induction l with
  | nil => intro _ k t h; cases h
  | cons kv rest ih =>
    intro hnd k t h
    obtain ⟨k2, t2⟩ := kv
    simp only [List.map_cons, List.nodup_cons] at hnd
    rcases List.mem_cons.mp h with heq | htail
    · obtain ⟨rfl, rfl⟩ := Prod.mk.injEq .. |>.mp heq
      simp [List.lookup]
    · have hne : (k == k2) = false := by
        have : k ∈ rest.map Prod.fst := List.mem_map_of_mem Prod.fst htail
        simp only [beq_eq_false_iff_ne, ne_eq]
        intro hk
        exact hnd.1 (hk ▸ this)
      simp [List.lookup, hne, ih hnd.2 k t htail]

theorem sqlEq_none_right (a : PyVal) : sqlEq a .vNone = false := by
  cases a <;> rfl

theorem rowMatches_of_none_cond (cols : List String) (cond : List (String × PyVal))
    (r : List PyVal) (k : String) (h : (k, PyVal.vNone) ∈ cond) :
    rowMatches cols cond r = false := by
  rw [rowMatches]
  refine List.all_eq_false.mpr ⟨(k, .vNone), h, ?_⟩
  rcases hg : getCol cols r k with - | x <;> simp [hg, sqlEq_none_right]

theorem execStmt_update_noop (tbl : Table) (tn : String)
    (assigns cond : List (String × PyVal)) (k : String)
    (h : (k, PyVal.vNone) ∈ cond) :
    execStmt tbl (.update tn assigns cond) = tbl := by
  have hm : ∀ r, rowMatches tbl.cols cond r = false :=
    fun r => rowMatches_of_none_cond _ _ _ _ h
  simp [execStmt, hm]

theorem execStmt_delete_noop (tbl : Table) (tn : String)
    (cond : List (String × PyVal)) (k : String)
    (h : (k, PyVal.vNone) ∈ cond) :
    execStmt tbl (.delete tn cond) = tbl := by
  have hm : ∀ r, rowMatches tbl.cols cond r = false :=
    fun r => rowMatches_of_none_cond _ _ _ _ h
  simp [execStmt, hm]

theorem buildCreateCols_ok (md : MetaData) :
    ∀ (data : List (String × PyVal)) (cols : List String) (params : List PyVal),
      buildCreateCols md data = .ok (cols, params) →
      cols = (data.filter (fun kv => !(isSentinel kv.2))).map Prod.fst := by
  intro data
  induction data with
  | nil =>
    intro cols params h
    rw [buildCreateCols] at h
    obtain ⟨rfl, -⟩ := Prod.mk.injEq .. |>.mp (Except.ok.injEq .. |>.mp h.symm)
    rfl
  | cons kv rest ih =>
    intro cols params h
    obtain ⟨k, v⟩ := kv
    rw [buildCreateCols] at h
    by_cases hs : isSentinel v = true
    · rw [if_pos hs] at h
      rw [List.filter_cons, if_neg (by simp [hs])]
      exact ih _ _ h
    · rw [if_neg hs] at h
      rcases hty : md.fields.lookup k with - | ty <;> rw [hty] at h
      · simp at h
      · rcases hrec : buildCreateCols md rest with e | p <;> rw [hrec] at h
        · simp at h
        · obtain ⟨cols2, params2⟩ := p
          obtain ⟨hc, -⟩ := Prod.mk.injEq .. |>.mp (Except.ok.injEq .. |>.mp h.symm)
          rw [List.filter_cons, if_pos (by simp [hs])]
          simp only [List.map_cons]
          rw [hc, ih _ _ hrec]

theorem buildCreateCols_of_all_sentinel (md : MetaData) :
    ∀ data : List (String × PyVal),
      data.filter (fun kv => !(isSentinel kv.2)) = [] →
      buildCreateCols md data = .ok ([], []) := by
  intro data
  induction data with
  | nil => intro _; rfl
  | cons kv rest ih =>
    intro h
    obtain ⟨k, v⟩ := kv
    rw [List.filter_cons] at h
    by_cases hs : isSentinel v = true
    · rw [buildCreateCols, if_pos hs]
      exact ih (by simpa [hs] using h)
    · exact absurd h (by simp [hs])

theorem buildAssignments_keys (md : MetaData) (pks : List String) :
    ∀ (data : List (String × PyVal)) (assigns : List (String × PyVal)),
      buildAssignments md pks data = .ok assigns →
      assigns.map Prod.fst =
        (data.filter (fun kv => !(decide (kv.1 ∈ pks)))).map Prod.fst := by
  intro data
  induction data with
  | nil =>
    intro assigns h
    rw [buildAssignments] at h
    have he : assigns = [] := Except.ok.injEq .. |>.mp h.symm
    subst he
    rfl
  | cons kv rest ih =>
    intro assigns h
    obtain ⟨k, v⟩ := kv
    rw [buildAssignments] at h
    by_cases hk : k ∈ pks
    · rw [if_pos hk] at h
      rw [List.filter_cons, if_neg (by simp [hk])]
      exact ih _ h
    · rw [if_neg hk] at h
      rcases hty : md.fields.lookup k with - | ty <;> rw [hty] at h
      · simp at h
      · rcases hrec : buildAssignments md pks rest with e | xs <;> rw [hrec] at h
        · simp at h
        · have he : assigns = (k, if ty = .dict then .vStr (json_to_str v) else v) :: xs :=
            Except.ok.injEq .. |>.mp h.symm
          subst he
          rw [List.filter_cons, if_pos (show (!decide (k ∈ pks)) = true by simpa using hk)]
          simp [ih _ hrec]

theorem buildAssignments_of_no_nonkey (md : MetaData) (pks : List String) :
    ∀ data : List (String × PyVal),
      data.filter (fun kv => !(decide (kv.1 ∈ pks))) = [] →
      buildAssignments md pks data = .ok [] := by
  intro data
  induction data with
  | nil => intro _; rfl
  | cons kv rest ih =>
    intro h
    obtain ⟨k, v⟩ := kv
    rw [List.filter_cons] at h
    by_cases hk : k ∈ pks
    · rw [buildAssignments, if_pos hk]
      exact ih (by simpa [hk] using h)
    · exact absurd h (by simp [hk])

theorem buildAssignments_lookup (md : MetaData) (pks : List String) :
    ∀ (data : List (String × PyVal)) (assigns : List (String × PyVal)),
      buildAssignments md pks data = .ok assigns →
      (data.map Prod.fst).Nodup →
      ∀ k v, (k, v) ∈ data → k ∉ pks →
        ∃ ty, md.fields.lookup k = some ty ∧
          assigns.lookup k = some (if ty = .dict then .vStr (json_to_str v) else v) := by
  intro data
  induction data with
  | nil => intro assigns _ _ k v h; cases h
  | cons kv rest ih =>
    intro assigns h hnd k v hmem hknp
    obtain ⟨k2, v2⟩ := kv
    simp only [List.map_cons, List.nodup_cons] at hnd
    rw [buildAssignments] at h
    by_cases hk2 : k2 ∈ pks
    · rw [if_pos hk2] at h
      rcases List.mem_cons.mp hmem with heq | htail
      · obtain ⟨rfl, rfl⟩ := Prod.mk.injEq .. |>.mp heq
        exact absurd hk2 hknp
      · exact ih _ h hnd.2 k v htail hknp
    · rw [if_neg hk2] at h
      rcases hty : md.fields.lookup k2 with - | ty2 <;> rw [hty] at h
      · simp at h
      · rcases hrec : buildAssignments md pks rest with e | xs <;> rw [hrec] at h
        · simp at h
        · have he : assigns = (k2, if ty2 = .dict then .vStr (json_to_str v2) else v2) :: xs :=
            Except.ok.injEq .. |>.mp h.symm
          subst he
          rcases List.mem_cons.mp hmem with heq | htail
          · obtain ⟨rfl, rfl⟩ := Prod.mk.injEq .. |>.mp heq
            exact ⟨ty2, hty, by simp [List.lookup]⟩
          · have hne : (k == k2) = false := by
              have : k ∈ rest.map Prod.fst := List.mem_map_of_mem Prod.fst htail
              simp only [beq_eq_false_iff_ne, ne_eq]
              intro hk
              exact hnd.1 (hk ▸ this)
            obtain ⟨ty, hty2, hlk⟩ := ih _ hrec hnd.2 k v htail hknp
            exact ⟨ty, hty2, by simp [List.lookup, hne, hlk]⟩

theorem pkCondParams_mem_present (data : List (String × PyVal)) (md : MetaData) :
    ∀ (pks : List String) (ps : List PyVal),
      pkCondParams data md pks = .ok ps →
      ∀ k, k ∈ pks → ∃ v, data.lookup k = some v := by
  intro pks
  induction pks with
  | nil => intro ps _ k h; cases h
  | cons k2 pks ih =>
    intro ps h k hk
    rw [pkCondParams] at h
    rcases hty : md.fields.lookup k2 with - | ty2 <;> rw [hty] at h
    · simp at h
    · rcases hv : data.lookup k2 with - | v2 <;> rw [hv] at h
      · simp at h
      · rcases hrec : pkCondParams data md pks with e | ps2 <;> rw [hrec] at h
        · simp at h
        · rcases List.mem_cons.mp hk with rfl | htail
          · exact ⟨v2, hv⟩
          · exact ih ps2 hrec k htail

theorem pkCondParams_missing (data : List (String × PyVal)) (md : MetaData) :
    ∀ pks : List String,
      (∃ k ∈ pks, data.lookup k = Option.none) →
      ∃ e, pkCondParams data md pks = .error e := by
  intro pks
  induction pks with
  | nil => rintro ⟨k, hk, -⟩; cases hk
  | cons k2 pks ih =>
    rintro ⟨k, hk, hnone⟩
    rw [pkCondParams]
    rcases hty : md.fields.lookup k2 with - | ty2
    · exact ⟨.keyError k2, rfl⟩
    · rcases hv : data.lookup k2 with - | v2
      · exact ⟨.keyError k2, rfl⟩
      · rcases List.mem_cons.mp hk with rfl | htail
        · rw [hv] at hnone; cases hnone
        · obtain ⟨e, he⟩ := ih ⟨k, htail, hnone⟩
          rw [he]
          exact ⟨e, rfl⟩

theorem callback_create_inv (tn : String) (data : List (String × PyVal)) (md : MetaData)
    (st : SqlStmt) :
    callback_create tn data md = .ok (some st) →
    ∃ cols params, buildCreateCols md data = .ok (cols, params) ∧
      st = .insert tn cols params ∧ cols ≠ [] := by
  intro h
  rw [callback_create] at h
  rcases h1 : check_primary_keys data md with e | u <;> rw [h1] at h
  · simp at h
  · rcases h2 : buildCreateCols md data with e | p <;> rw [h2] at h
    · simp at h
    · obtain ⟨cols, params⟩ := p
      dsimp only at h
      by_cases h3 : cols.isEmpty
      · rw [if_pos h3] at h
        simp at h
      · rw [if_neg h3] at h
        have hst : st = .insert tn cols params :=
          (Option.some.injEq .. |>.mp (Except.ok.injEq .. |>.mp h)).symm
        exact ⟨cols, params, rfl, hst, by simpa [List.isEmpty_iff] using h3⟩

theorem get_pk_cond_inv (data : List (String × PyVal)) (md : MetaData)
    (ct : String) (wp : List PyVal) :
    get_primary_key_condition data md = .ok (ct, wp) →
    pkCondParams data md md.primary_key = .ok wp := by
  intro h
  rw [get_primary_key_condition] at h
  rcases hp : pkCondParams data md md.primary_key with e | ps <;> rw [hp] at h
  · simp at h
  · obtain ⟨-, hw⟩ := Prod.mk.injEq .. |>.mp (Except.ok.injEq .. |>.mp h)
    rw [hw]

theorem callback_update_inv (tn : String) (data : List (String × PyVal)) (md : MetaData)
    (st : SqlStmt) :
    callback_update tn data md = .ok (some st) →
    ∃ ct wp assigns, get_primary_key_condition data md = .ok (ct, wp) ∧
      buildAssignments md md.primary_key data = .ok assigns ∧ assigns ≠ [] ∧
      st = .update tn assigns (md.primary_key.zip wp) := by
  intro h
  rw [callback_update] at h
  rcases h1 : get_primary_key_condition data md with e | p <;> rw [h1] at h
  · simp at h
  · obtain ⟨ct, wp⟩ := p
    rcases h2 : buildAssignments md md.primary_key data with e | assigns <;> rw [h2] at h
    · simp at h
    · dsimp only at h
      by_cases h3 : assigns.isEmpty
      · rw [if_pos h3] at h
        simp at h
      · rw [if_neg h3] at h
        have hst : st = .update tn assigns (md.primary_key.zip wp) :=
          (Option.some.injEq .. |>.mp (Except.ok.injEq .. |>.mp h)).symm
        exact ⟨ct, wp, assigns, rfl, rfl, by simpa [List.isEmpty_iff] using h3, hst⟩

theorem callback_delete_inv (tn : String) (data : List (String × PyVal)) (md : MetaData)
    (st : SqlStmt) :
    callback_delete tn data md = .ok st →
    ∃ ct wp, get_primary_key_condition data md = .ok (ct, wp) ∧
      st = .delete tn (md.primary_key.zip wp) := by
  intro h
  rw [callback_delete] at h
  rcases h1 : get_primary_key_condition data md with e | p <;> rw [h1] at h
  · simp at h
  · obtain ⟨ct, wp⟩ := p
    exact ⟨ct, wp, rfl, (Except.ok.injEq .. |>.mp h).symm⟩

theorem callback_read_cond_inv (tn : String) (data : List (String × PyVal)) (md : MetaData)
    (tbl : Table) (out : Option (List PyVal)) :
    callback_read tn data md tbl = .ok out →
    ∃ ct wp, get_primary_key_condition data md = .ok (ct, wp) ∧
      ((out = Option.none ∧
          fetchone (selectWhere tbl (md.primary_key.zip wp)) = Option.none) ∨
        (∃ row, fetchone (selectWhere tbl (md.primary_key.zip wp)) = some row ∧
          out = some (decodeRow md row))) := by
  intro h
  rw [callback_read] at h
  rcases h1 : get_primary_key_condition data md with e | p <;> rw [h1] at h
  · simp at h
  · obtain ⟨ct, wp⟩ := p
    dsimp only at h
    rcases h2 : fetchone (selectWhere tbl (md.primary_key.zip wp)) with - | row <;>
      rw [h2] at h
    · exact ⟨ct, wp, rfl, Or.inl ⟨(Except.ok.injEq .. |>.mp h).symm, h2⟩⟩
    · exact ⟨ct, wp, rfl, Or.inr ⟨row, h2, (Except.ok.injEq .. |>.mp h).symm⟩⟩

theorem pkCondParams_null_zip (data : List (String × PyVal)) (md : MetaData) :
    ∀ (pks : List String) (ps : List PyVal),
      pkCondParams data md pks = .ok ps →
      ∀ k, k ∈ pks → data.lookup k = some .vNone →
        (∀ ty, md.fields.lookup k = some ty → ty ≠ .dict) →
        (k, PyVal.vNone) ∈ pks.zip ps := by
  intro pks
  induction pks with
  | nil => intro ps _ k h; cases h
  | cons k2 pks ih =>
    intro ps h k hk hnull hnd
    rw [pkCondParams] at h
    rcases hty : md.fields.lookup k2 with - | ty2 <;> rw [hty] at h
    · simp at h
    · rcases hv : data.lookup k2 with - | v2 <;> rw [hv] at h
      · simp at h
      · rcases hrec : pkCondParams data md pks with e | ps2 <;> rw [hrec] at h
        · simp at h
        · have he : ps = (if ty2 = .dict then .vStr (json_to_str v2) else v2) :: ps2 :=
            Except.ok.injEq .. |>.mp h.symm
          subst he
          rcases List.mem_cons.mp hk with rfl | htail
          · have hv2 : v2 = .vNone := by
              rw [hv] at hnull
              exact (Option.some.injEq .. |>.mp hnull.symm).symm
            have hnd2 : ty2 ≠ .dict := hnd ty2 hty
            rw [List.zip_cons_cons]
            exact List.mem_cons.mpr (Or.inl (by rw [hv2, if_neg hnd2]))
          · exact List.mem_cons.mpr (Or.inr (ih ps2 hrec k htail hnull hnd))



/-- C1 (counterexample): in an update payload the empty-string sentinel
value is not excluded: the generated SET assignment list contains the
sentinel-valued field. -/
theorem C1_counterexample :
    ∃ assigns cond,
      callback_update "users" [("id", PyVal.vInt 1), ("name", PyVal.vStr "")] exampleMd =
        .ok (some (.update "users" assigns cond)) ∧
      ("name", PyVal.vStr "") ∈ assigns :=
  ⟨[("name", PyVal.vStr "")], [("id", PyVal.vInt 1)], rfl, by simp⟩

/-- C1 (amended): a create payload excludes exactly the sentinel-valued
fields from the generated column and parameter lists; an update payload
excludes only the primary-key fields, so a sentinel value in a non-key
field stays in the SET assignment list. -/
theorem C1_amended (table_name : String) (data : List (String × PyVal)) (md : MetaData)
    (cols : List String) (params : List PyVal) (assigns cond : List (String × PyVal))
    (hc : callback_create table_name data md = .ok (some (.insert table_name cols params)))
    (hu : callback_update table_name data md = .ok (some (.update table_name assigns cond))) :
    cols = (data.filter (fun kv => !(isSentinel kv.2))).map Prod.fst ∧
    assigns.map Prod.fst =
      (data.filter (fun kv => !(decide (kv.1 ∈ md.primary_key)))).map Prod.fst := by
  constructor
  · obtain ⟨cols2, params2, hbc, hst, -⟩ := callback_create_inv _ _ _ _ hc
    obtain ⟨-, hcc, -⟩ := SqlStmt.insert.injEq .. |>.mp hst
    rw [hcc]
    exact buildCreateCols_ok md data cols2 params2 hbc
  · obtain ⟨ct, wp, assigns2, -, hba, -, hst⟩ := callback_update_inv _ _ _ _ hu
    obtain ⟨-, haa, -⟩ := SqlStmt.update.injEq .. |>.mp hst
    rw [haa]
    exact buildAssignments_keys md md.primary_key data assigns2 hba

theorem C1_amended_witness :
    ["id"] = ([("id", PyVal.vInt 1), ("name", PyVal.vStr "")].filter
        (fun kv => !(isSentinel kv.2))).map Prod.fst ∧
    [("name", PyVal.vStr "")].map Prod.fst =
      ([("id", PyVal.vInt 1), ("name", PyVal.vStr "")].filter
        (fun kv => !(decide (kv.1 ∈ exampleMd.primary_key)))).map Prod.fst :=
  C1_amended "users" [("id", PyVal.vInt 1), ("name", PyVal.vStr "")] exampleMd
    ["id"] [PyVal.vInt 1] [("name", PyVal.vStr "")] [("id", PyVal.vInt 1)] rfl rfl

/-- C2 (counterexample): deleting with a null primary-key value raises no
validation error: the delete statement is built and handed to the
backend. -/
theorem C2_counterexample :
    callback_delete "users" [("id", PyVal.vNone)] exampleMd =
      .ok (.delete "users" [("id", PyVal.vNone)]) := rfl

/-- C2 (amended): Create raises the validation error, before building any
statement, whenever a primary-key field is missing or null.  Update and
Delete raise an error only for a missing primary-key field; a null
primary-key value raises nothing: the statement is built and executed,
and its null equality condition matches no rows, leaving the stored
state unchanged. -/
theorem C2_amended (table_name : String) (data : List (String × PyVal)) (md : MetaData) :
    ((∃ k ∈ md.primary_key, isNoneOrMissing data k = true) →
      ∃ msg, callback_create table_name data md = .error (.assertionError msg)) ∧
    ((∃ k ∈ md.primary_key, data.lookup k = Option.none) →
      (∃ e, callback_update table_name data md = .error e) ∧
      (∃ e, callback_delete table_name data md = .error e)) ∧
    (∀ (k : String) (assigns cond : List (String × PyVal)) (tbl : Table),
      k ∈ md.primary_key → data.lookup k = some .vNone →
      (∀ ty, md.fields.lookup k = some ty → ty ≠ .dict) →
      callback_update table_name data md = .ok (some (.update table_name assigns cond)) →
      execStmt tbl (.update table_name assigns cond) = tbl) ∧
    (∀ (k : String) (cond : List (String × PyVal)) (tbl : Table),
      k ∈ md.primary_key → data.lookup k = some .vNone →
      (∀ ty, md.fields.lookup k = some ty → ty ≠ .dict) →
      callback_delete table_name data md = .ok (.delete table_name cond) →
      execStmt tbl (.delete table_name cond) = tbl) := by
  refine ⟨?_, ?_, ?_, ?_⟩
  · rintro ⟨k, hk, hnm⟩
    have hs : (md.primary_key.find? (isNoneOrMissing data)).isSome :=
      List.find?_isSome.mpr ⟨k, hk, hnm⟩
    rcases hf : md.primary_key.find? (isNoneOrMissing data) with - | k2
    · rw [hf] at hs
      simp at hs
    · refine ⟨"Error: " ++ k2 ++ " key is primary and None", ?_⟩
      rw [callback_create, check_primary_keys, hf]
  · rintro ⟨k, hk, hnone⟩
    obtain ⟨e, he⟩ := pkCondParams_missing data md md.primary_key ⟨k, hk, hnone⟩
    constructor
    · exact ⟨e, by rw [callback_update, get_primary_key_condition, he]⟩
    · exact ⟨e, by rw [callback_delete, get_primary_key_condition, he]⟩
  · intro k assigns cond tbl hk hnull hty hupd
    obtain ⟨ct, wp, assigns2, hcond, -, -, hst⟩ := callback_update_inv _ _ _ _ hupd
    obtain ⟨-, -, hcc⟩ := SqlStmt.update.injEq .. |>.mp hst
    have hzip := pkCondParams_null_zip data md md.primary_key wp
      (get_pk_cond_inv data md ct wp hcond) k hk hnull hty
    rw [← hcc] at hzip
    exact execStmt_update_noop tbl table_name assigns cond k hzip
  · intro k cond tbl hk hnull hty hdel
    obtain ⟨ct, wp, hcond, hst⟩ := callback_delete_inv _ _ _ _ hdel
    obtain ⟨-, hcc⟩ := SqlStmt.delete.injEq .. |>.mp hst
    have hzip := pkCondParams_null_zip data md md.primary_key wp
      (get_pk_cond_inv data md ct wp hcond) k hk hnull hty
    rw [← hcc] at hzip
    exact execStmt_delete_noop tbl table_name cond k hzip

theorem C2_amended_witness :
    (∃ msg, callback_create "users" [("name", PyVal.vStr "x")] exampleMd =
      .error (.assertionError msg)) ∧
    (∃ e, callback_update "users" [("name", PyVal.vStr "x")] exampleMd = .error e) ∧
    (∃ e, callback_delete "users" [("name", PyVal.vStr "x")] exampleMd = .error e) ∧
    execStmt exampleTbl (.update "users" [("name", PyVal.vStr "Q")] [("id", PyVal.vNone)]) =
      exampleTbl ∧
    execStmt exampleTbl (.delete "users" [("id", PyVal.vNone)]) = exampleTbl := by
  have htyp : ∀ ty, exampleMd.fields.lookup "id" = some ty → ty ≠ PyType.dict := by
    intro ty h
    have h2 : some PyType.int = some ty := h
    cases h2
    decide
  obtain ⟨h1, h2, -, -⟩ := C2_amended "users" [("name", PyVal.vStr "x")] exampleMd
  obtain ⟨-, -, g3, -⟩ :=
    C2_amended "users" [("id", PyVal.vNone), ("name", PyVal.vStr "Q")] exampleMd
  obtain ⟨-, -, -, g4⟩ := C2_amended "users" [("id", PyVal.vNone)] exampleMd
  refine ⟨h1 ⟨"id", by simp [exampleMd], rfl⟩, (h2 ⟨"id", by simp [exampleMd], rfl⟩).1,
    (h2 ⟨"id", by simp [exampleMd], rfl⟩).2, ?_, ?_⟩
  · exact g3 "id" [("name", PyVal.vStr "Q")] [("id", PyVal.vNone)] exampleTbl
      (by simp [exampleMd]) rfl htyp rfl
  · exact g4 "id" [("id", PyVal.vNone)] exampleTbl (by simp [exampleMd]) rfl htyp rfl

/-- C8 (counterexample): a create input in which zero fields remain after
sentinel filtering does not return when a primary-key field is absent;
it raises the validation error instead. -/
theorem C8_counterexample :
    ([("name", PyVal.vStr "")].filter (fun kv => !(isSentinel kv.2))) = [] ∧
    callback_create "users" [("name", PyVal.vStr "")] exampleMd =
      .error (.assertionError "Error: id key is primary and None") :=
  ⟨rfl, rfl⟩

/-- C8 (amended): when zero fields remain after sentinel filtering,
Create executes no statement, returning normally only if primary-key
validation passes and raising the validation error otherwise; Update
executes no statement when the input contains no non-primary-key
fields.  In these no-statement cases nothing reaches the backend, so
the stored state is unchanged. -/
theorem C8_amended (table_name : String) (data : List (String × PyVal)) (md : MetaData) :
    (data.filter (fun kv => !(isSentinel kv.2)) = [] →
      (∀ stmt, callback_create table_name data md ≠ .ok (some stmt)) ∧
      (check_primary_keys data md = .ok () →
        callback_create table_name data md = .ok Option.none)) ∧
    (data.filter (fun kv => !(decide (kv.1 ∈ md.primary_key))) = [] →
      ∀ stmt, callback_update table_name data md ≠ .ok (some stmt)) := by
  constructor
  · intro hfil
    have hb := buildCreateCols_of_all_sentinel md data hfil
    constructor
    · intro stmt hok
      obtain ⟨cols, params, hbc, -, hne⟩ := callback_create_inv _ _ _ _ hok
      rw [hb] at hbc
      obtain ⟨hc, -⟩ := Prod.mk.injEq .. |>.mp (Except.ok.injEq .. |>.mp hbc)
      exact hne hc.symm
    · intro hchk
      rw [callback_create, hchk, hb]
      rfl
  · intro hfil stmt hok
    obtain ⟨ct, wp, assigns, -, hba, hne, -⟩ := callback_update_inv _ _ _ _ hok
    rw [buildAssignments_of_no_nonkey md md.primary_key data hfil] at hba
    exact hne (Except.ok.injEq .. |>.mp hba).symm

theorem C8_amended_witness :
    ((∀ stmt, callback_create "users" [("name", PyVal.vStr "")] exampleMd ≠ .ok (some stmt)) ∧
      (check_primary_keys [("name", PyVal.vStr "")] exampleMd = .ok () →
        callback_create "users" [("name", PyVal.vStr "")] exampleMd = .ok Option.none)) ∧
    (∀ stmt, callback_update "users" [("id", PyVal.vInt 1)] exampleMd ≠ .ok (some stmt)) :=
  ⟨(C8_amended "users" [("name", PyVal.vStr "")] exampleMd).1 rfl,
    (C8_amended "users" [("id", PyVal.vInt 1)] exampleMd).2 rfl⟩

theorem decodeRowAux_length :
    ∀ (row : List PyVal) (mask : List Bool) (j : Nat),
      (decodeRowAux mask j row).length = row.length := by
  intro row
  induction row with
  | nil => intro mask j; rfl
  | cons v vs ih =>
    intro mask j
    rw [decodeRowAux, List.length_cons, List.length_cons, ih]

theorem decodeRowAux_getD :
    ∀ (row : List PyVal) (mask : List Bool) (j i : Nat),
      (decodeRowAux mask j row).getD i .vNone =
        if mask.getD (j + i) false then str_to_json (row.getD i .vNone)
        else row.getD i .vNone := by
  intro row
  induction row with
  | nil =>
    intro mask j i
    rcases mask.getD (j + i) false <;> simp [decodeRowAux, str_to_json]
  | cons v vs ih =>
    intro mask j i
    match i with
    | 0 => simp [decodeRowAux]
    | n + 1 =>
      rw [decodeRowAux]
      show (decodeRowAux mask (j + 1) vs).getD n .vNone = _
      rw [ih mask (j + 1) n]
      have hj : j + 1 + n = j + (n + 1) := by omega
      rw [hj]
      rfl

/-- C6: a read whose primary-key condition matches no stored row returns
the explicit absent result, not an error; a read that matches a row
returns the positional row in which exactly the positions whose field is
dict-typed are `str_to_json`-decoded and every other position is the
stored value unchanged. -/
theorem C6_read (table_name : String) (data : List (String × PyVal)) (md : MetaData)
    (tbl : Table) (ct : String) (wp : List PyVal)
    (hc : get_primary_key_condition data md = .ok (ct, wp)) :
    (selectWhere tbl (md.primary_key.zip wp) = [] →
      callback_read table_name data md tbl = .ok Option.none) ∧
    (∀ row rest, selectWhere tbl (md.primary_key.zip wp) = row :: rest →
      callback_read table_name data md tbl = .ok (some (decodeRow md row)) ∧
      (decodeRow md row).length = row.length ∧
      ∀ i, (decodeRow md row).getD i .vNone =
        if (dictMask md).getD i false then str_to_json (row.getD i .vNone)
        else row.getD i .vNone) := by
  constructor
  · intro hsel
    rw [callback_read, hc]
    dsimp only
    rw [show fetchone (selectWhere tbl (md.primary_key.zip wp)) = Option.none from
      by rw [hsel]; rfl]
  · intro row rest hsel
    refine ⟨?_, decodeRowAux_length row (dictMask md) 0, ?_⟩
    · rw [callback_read, hc]
      dsimp only
      rw [show fetchone (selectWhere tbl (md.primary_key.zip wp)) = some row from
        by rw [hsel]; rfl]
    · intro i
      have h := decodeRowAux_getD row (dictMask md) 0 i
      rw [Nat.zero_add] at h
      exact h

theorem C6_read_witness :
    callback_read "users" [("id", PyVal.vInt 2)] exampleMd exampleTbl = .ok Option.none ∧
    callback_read "users" [("id", PyVal.vInt 1)] exampleMd exampleTbl =
      .ok (some (decodeRow exampleMd [PyVal.vInt 1, PyVal.vStr "Bob", PyVal.vStr "[7]"])) ∧
    (decodeRow exampleMd [PyVal.vInt 1, PyVal.vStr "Bob", PyVal.vStr "[7]"]).getD 2 .vNone =
      str_to_json (PyVal.vStr "[7]") := by
  obtain ⟨h1, -⟩ :=
    C6_read "users" [("id", PyVal.vInt 2)] exampleMd exampleTbl "id = ?" [PyVal.vInt 2] rfl
  obtain ⟨-, h2⟩ :=
    C6_read "users" [("id", PyVal.vInt 1)] exampleMd exampleTbl "id = ?" [PyVal.vInt 1] rfl
  obtain ⟨ha, -, hd⟩ := h2 [PyVal.vInt 1, PyVal.vStr "Bob", PyVal.vStr "[7]"] [] rfl
  have h3 := hd 2
  rw [show (dictMask exampleMd).getD 2 false = true from rfl] at h3
  rw [if_pos rfl] at h3
  exact ⟨h1 rfl, ha, h3⟩

/-- C10: Read-all performs no Row Codec decoding — it returns the first
stored row as-is, so at a dict-typed field position it yields the raw
serialized text, while a read of the same row returns the
`str_to_json`-decoded value at that position. -/
theorem C10_read_all_raw (table_name : String) (tbl : Table) (md : MetaData)
    (data : List (String × PyVal)) (ct : String) (wp : List PyVal)
    (row : List PyVal) (rest : List (List PyVal)) (i : Nat)
    (hrows : tbl.rows = row :: rest)
    (hc : get_primary_key_condition data md = .ok (ct, wp))
    (hsel : fetchone (selectWhere tbl (md.primary_key.zip wp)) = some row)
    (hmask : (dictMask md).getD i false = true) :
    read_all table_name tbl = some row ∧
    callback_read table_name data md tbl = .ok (some (decodeRow md row)) ∧
    (decodeRow md row).getD i .vNone = str_to_json (row.getD i .vNone) := by
  refine ⟨?_, ?_, ?_⟩
  · rw [read_all, selectAllRows, hrows]
    rfl
  · rw [callback_read, hc]
    dsimp only
    rw [hsel]
  · have h := decodeRowAux_getD row (dictMask md) 0 i
    rw [Nat.zero_add, hmask, if_pos rfl] at h
    exact h

theorem C10_read_all_raw_witness :
    read_all "users" exampleTbl = some [PyVal.vInt 1, PyVal.vStr "Bob", PyVal.vStr "[7]"] ∧
    callback_read "users" [("id", PyVal.vInt 1)] exampleMd exampleTbl =
      .ok (some (decodeRow exampleMd [PyVal.vInt 1, PyVal.vStr "Bob", PyVal.vStr "[7]"])) ∧
    (decodeRow exampleMd [PyVal.vInt 1, PyVal.vStr "Bob", PyVal.vStr "[7]"]).getD 2 .vNone =
      str_to_json (PyVal.vStr "[7]") :=
  C10_read_all_raw "users" exampleTbl exampleMd [("id", PyVal.vInt 1)] "id = ?"
    [PyVal.vInt 1] [PyVal.vInt 1, PyVal.vStr "Bob", PyVal.vStr "[7]"] [] 2 rfl rfl rfl rfl

theorem getCol_applyAssigns (assigns : List (String × PyVal)) :
    ∀ (cols : List String) (r : List PyVal) (k : String),
      getCol cols (applyAssigns cols assigns r) k =
        (getCol cols r k).map (fun x => (assigns.lookup k).getD x) := by
  intro cols
  induction cols with
  | nil => intro r k; rfl
  | cons c cs ih =>
    intro r k
    cases r with
    | nil => rfl
    | cons v vs =>
      have hA : applyAssigns (c :: cs) assigns (v :: vs) =
          ((assigns.lookup c).getD v) :: applyAssigns cs assigns vs := by
        rw [applyAssigns, applyAssigns, List.zip_cons_cons, List.map_cons]
      rw [hA, getCol, getCol, List.zip_cons_cons, List.zip_cons_cons]
      by_cases h : k = c
      · subst h
        simp [List.lookup]
      · have hb : (k == c) = false := by simp [h]
        simp only [List.lookup, hb]
        exact ih vs k

theorem getCol_applyAssigns_none (cols : List String) (assigns : List (String × PyVal))
    (r : List PyVal) (k : String) (h : assigns.lookup k = Option.none) :
    getCol cols (applyAssigns cols assigns r) k = getCol cols r k := by
  rw [getCol_applyAssigns, h]
  rcases getCol cols r k with - | x <;> rfl

theorem rowMatches_applyAssigns (cols : List String) (assigns : List (String × PyVal)) :
    ∀ (cond : List (String × PyVal)) (r : List PyVal),
      (∀ kw ∈ cond, assigns.lookup kw.1 = Option.none) →
      rowMatches cols cond (applyAssigns cols assigns r) = rowMatches cols cond r := by
  intro cond
  induction cond with
  | nil => intro r _; rfl
  | cons kw rest ih =>
    intro r h
    rw [rowMatches, rowMatches, List.all_cons, List.all_cons]
    rw [getCol_applyAssigns_none cols assigns r kw.1 (h kw (List.mem_cons_self ..))]
    have ht := ih r (fun x hx => h x (List.mem_cons_of_mem kw hx))
    rw [rowMatches, rowMatches] at ht
    rw [ht]

theorem filter_map_update (cols : List String) (assigns cond : List (String × PyVal))
    (h : ∀ kw ∈ cond, assigns.lookup kw.1 = Option.none) :
    ∀ rows : List (List PyVal),
      (rows.map (fun r =>
          if rowMatches cols cond r then applyAssigns cols assigns r else r)).filter
          (rowMatches cols cond) =
        (rows.filter (rowMatches cols cond)).map (applyAssigns cols assigns) := by
  intro rows
  induction rows with
  | nil => rfl
  | cons r rs ih =>
    rw [List.map_cons]
    by_cases hm : rowMatches cols cond r = true
    · rw [if_pos hm]
      have hm2 : rowMatches cols cond (applyAssigns cols assigns r) = true := by
        rw [rowMatches_applyAssigns cols assigns cond r h]
        exact hm
      rw [List.filter_cons, List.filter_cons, if_pos hm2, if_pos hm, List.map_cons, ih]
    · rw [if_neg hm, List.filter_cons, List.filter_cons, if_neg hm, if_neg hm, ih]

theorem selectWhere_execStmt_update (tbl : Table) (tn : String)
    (assigns cond : List (String × PyVal))
    (h : ∀ kw ∈ cond, assigns.lookup kw.1 = Option.none) :
    selectWhere (execStmt tbl (.update tn assigns cond)) cond =
      (selectWhere tbl cond).map (applyAssigns tbl.cols assigns) :=
  filter_map_update tbl.cols assigns cond h tbl.rows

theorem applyAssigns_length (cols : List String) (assigns : List (String × PyVal))
    (r : List PyVal) :
    (applyAssigns cols assigns r).length = min cols.length r.length := by
  rw [applyAssigns, List.length_map, List.length_zip]

theorem getCol_getD_of_nodup :
    ∀ (cols : List String) (r : List PyVal) (i : Nat),
      cols.Nodup → i < cols.length → i < r.length →
      getCol cols r (cols.getD i "") = some (r.getD i .vNone) := by
  intro cols
  induction cols with
  | nil => intro r i _ hi _; cases hi
  | cons c cs ih =>
    intro r i hnd hi hr
    cases r with
    | nil => cases hr
    | cons v vs =>
      have hnd2 := List.nodup_cons.mp hnd
      match i with
      | 0 =>
        show getCol (c :: cs) (v :: vs) c = some v
        rw [getCol, List.zip_cons_cons]
        simp [List.lookup]
      | n + 1 =>
        have hn : n < cs.length := Nat.lt_of_succ_lt_succ hi
        have hkmem : cs.getD n "" ∈ cs := by
          rw [List.getD_eq_getElem cs "" hn]
          exact List.getElem_mem hn
        have hne : (cs.getD n "" == c) = false := by
          simp only [beq_eq_false_iff_ne, ne_eq]
          intro hkc
          exact hnd2.1 (hkc ▸ hkmem)
        show getCol (c :: cs) (v :: vs) (cs.getD n "") = some (vs.getD n .vNone)
        rw [getCol, List.zip_cons_cons]
        simp only [List.lookup, hne]
        exact ih vs n hnd2.2 hn (Nat.lt_of_succ_lt_succ hr)

theorem getD_map_fn {α β : Type} (f : α → β) (d : α) :
    ∀ (l : List α) (i : Nat), i < l.length → (l.map f).getD i (f d) = f (l.getD i d) := by
  intro l
  induction l with
  | nil => intro i hi; cases hi
  | cons a l ih =>
    intro i hi
    match i with
    | 0 => rfl
    | n + 1 => exact ih n (Nat.lt_of_succ_lt_succ hi)

theorem getD_mem {α : Type} (d : α) :
    ∀ (l : List α) (i : Nat), i < l.length → l.getD i d ∈ l := by
  intro l
  induction l with
  | nil => intro i hi; cases hi
  | cons a l ih =>
    intro i hi
    match i with
    | 0 => exact List.mem_cons_self ..
    | n + 1 => exact List.mem_cons_of_mem a (ih n (Nat.lt_of_succ_lt_succ hi))

theorem dictMask_names_getD (md : MetaData) (i : Nat)
    (hi : i < (nonReservedNames md).length) :
    ∃ ty, ((nonReservedNames md).getD i "", ty) ∈ md.fields ∧
      (dictMask md).getD i false = (ty == PyType.dict) := by
  have hiF : i < (nonReservedFields md).length := by
    rw [nonReservedNames, List.length_map] at hi
    exact hi
  refine ⟨((nonReservedFields md).getD i ("", .int)).2, ?_, ?_⟩
  · have hname : (nonReservedNames md).getD i "" =
        ((nonReservedFields md).getD i ("", .int)).1 := by
      rw [nonReservedNames]
      exact getD_map_fn Prod.fst ("", PyType.int) (nonReservedFields md) i hiF
    rw [hname]
    have hmem : (nonReservedFields md).getD i ("", .int) ∈ nonReservedFields md :=
      getD_mem ("", PyType.int) (nonReservedFields md) i hiF
    have hpair : (((nonReservedFields md).getD i ("", .int)).1,
        ((nonReservedFields md).getD i ("", .int)).2) =
        (nonReservedFields md).getD i ("", .int) := rfl
    rw [hpair]
    exact List.mem_of_mem_filter hmem
  · rw [dictMask]
    exact getD_map_fn (fun kt => kt.2 == PyType.dict) ("", PyType.int)
      (nonReservedFields md) i hiF

/-- C9: an update's SET assignment list covers exactly the
non-primary-key fields present in the input; executing the update on the
stored table and re-reading with the same key returns a row that agrees
with the pre-update read at every primary-key position and holds the new
input value at every updated field's position (dict-typed values
round-tripping through the codec). -/
theorem C9_update_frame (tn : String) (data : List (String × PyVal)) (md : MetaData)
    (tbl : Table) (assigns cond : List (String × PyVal)) (row0 : List PyVal)
    (rest : List (List PyVal))
    (hndf : (md.fields.map Prod.fst).Nodup)
    (hnd : (data.map Prod.fst).Nodup)
    (hcols : tbl.cols = nonReservedNames md)
    (hlen : row0.length = tbl.cols.length)
    (hupd : callback_update tn data md = .ok (some (.update tn assigns cond)))
    (hsel : selectWhere tbl cond = row0 :: rest) :
    assigns.map Prod.fst =
      (data.filter (fun kv => !(decide (kv.1 ∈ md.primary_key)))).map Prod.fst ∧
    callback_read tn data md (execStmt tbl (.update tn assigns cond)) =
      .ok (some (decodeRow md (applyAssigns tbl.cols assigns row0))) ∧
    (∀ i k, tbl.cols.getD i "" = k → i < tbl.cols.length → k ∈ md.primary_key →
      (decodeRow md (applyAssigns tbl.cols assigns row0)).getD i .vNone =
        (decodeRow md row0).getD i .vNone) ∧
    (∀ i k v, tbl.cols.getD i "" = k → i < tbl.cols.length → (k, v) ∈ data →
      k ∉ md.primary_key →
      (decodeRow md (applyAssigns tbl.cols assigns row0)).getD i .vNone = v) := by
  obtain ⟨ct, wp, assigns2, hc, hba, -, hst⟩ := callback_update_inv tn data md _ hupd
  obtain ⟨-, ha, hcnd⟩ := SqlStmt.update.injEq .. |>.mp hst
  subst ha
  subst hcnd
  have hkeys := buildAssignments_keys md md.primary_key data assigns hba
  have hnonekey : ∀ k, k ∈ md.primary_key → assigns.lookup k = Option.none := by
    intro k hk
    apply lookup_eq_none_of_not_mem
    rw [hkeys]
    intro hmem
    obtain ⟨x, hx, hfst⟩ := List.mem_map.mp hmem
    obtain ⟨-, hpred⟩ := List.mem_filter.mp hx
    rw [hfst] at hpred
    simp at hpred
    exact hpred hk
  have hdisj : ∀ kw ∈ md.primary_key.zip wp, assigns.lookup kw.1 = Option.none :=
    fun kw hkw => hnonekey kw.1 (List.of_mem_zip hkw).1
  have hnn : tbl.cols.Nodup := by
    rw [hcols]
    refine hndf.sublist ?_
    rw [nonReservedNames, nonReservedFields]
    exact (List.filter_sublist _).map Prod.fst
  have hulen : (applyAssigns tbl.cols assigns row0).length = tbl.cols.length := by
    rw [applyAssigns_length, hlen, Nat.min_self]
  refine ⟨hkeys, ?_, ?_, ?_⟩
  · rw [callback_read, hc]
    dsimp only
    rw [selectWhere_execStmt_update tbl tn assigns (md.primary_key.zip wp) hdisj,
      hsel, List.map_cons]
    rfl
  · intro i k hik hi hkpk
    have hgc : getCol tbl.cols (applyAssigns tbl.cols assigns row0) k =
        getCol tbl.cols row0 k :=
      getCol_applyAssigns_none tbl.cols assigns row0 k (hnonekey k hkpk)
    have h1 : getCol tbl.cols row0 k = some (row0.getD i .vNone) := by
      rw [← hik]
      exact getCol_getD_of_nodup tbl.cols row0 i hnn hi (by rw [hlen]; exact hi)
    have h2 : getCol tbl.cols (applyAssigns tbl.cols assigns row0) k =
        some ((applyAssigns tbl.cols assigns row0).getD i .vNone) := by
      rw [← hik]
      exact getCol_getD_of_nodup tbl.cols (applyAssigns tbl.cols assigns row0) i hnn hi
        (by rw [hulen]; exact hi)
    have hraw : (applyAssigns tbl.cols assigns row0).getD i .vNone =
        row0.getD i .vNone :=
      Option.some.injEq .. |>.mp (h2.symm.trans (hgc.trans h1))
    rw [decodeRow, decodeRow, decodeRowAux_getD, decodeRowAux_getD, Nat.zero_add, hraw]
  · intro i k v hik hi hkv hknpk
    obtain ⟨ty, hty, hlk⟩ :=
      buildAssignments_lookup md md.primary_key data assigns hba hnd k v hkv hknpk
    have h1 : getCol tbl.cols row0 k = some (row0.getD i .vNone) := by
      rw [← hik]
      exact getCol_getD_of_nodup tbl.cols row0 i hnn hi (by rw [hlen]; exact hi)
    have h2 : getCol tbl.cols (applyAssigns tbl.cols assigns row0) k =
        some ((applyAssigns tbl.cols assigns row0).getD i .vNone) := by
      rw [← hik]
      exact getCol_getD_of_nodup tbl.cols (applyAssigns tbl.cols assigns row0) i hnn hi
        (by rw [hulen]; exact hi)
    have h3 : getCol tbl.cols (applyAssigns tbl.cols assigns row0) k =
        some (if ty = .dict then PyVal.vStr (json_to_str v) else v) := by
      rw [getCol_applyAssigns, h1]
      simp [hlk]
    have hraw : (applyAssigns tbl.cols assigns row0).getD i .vNone =
        (if ty = .dict then PyVal.vStr (json_to_str v) else v) :=
      Option.some.injEq .. |>.mp (h2.symm.trans h3)
    have hiN : i < (nonReservedNames md).length := by
      rw [← hcols]
      exact hi
    obtain ⟨ty2, hmem2, hmask⟩ := dictMask_names_getD md i hiN
    have hk2 : (nonReservedNames md).getD i "" = k := by
      rw [← hcols]
      exact hik
    rw [hk2] at hmem2
    have hty2 : md.fields.lookup k = some ty2 :=
      lookup_of_nodup_mem md.fields hndf k ty2 hmem2
    have htyeq : ty2 = ty := Option.some.injEq .. |>.mp (hty2.symm.trans hty)
    subst htyeq
    rw [decodeRow, decodeRowAux_getD, Nat.zero_add, hraw, hmask]
    by_cases hd : ty2 = PyType.dict
    · rw [if_pos (show (ty2 == PyType.dict) = true by rw [hd]; rfl), if_pos hd]
      exact str_to_json_json_to_str v
    · rw [if_neg (show ¬((ty2 == PyType.dict) = true) by simp [hd]), if_neg hd]

theorem C9_update_frame_witness :
    ([("name", PyVal.vStr "Bobby"),
        ("meta", PyVal.vStr (json_to_str (PyVal.vDict [("a", PyVal.vInt 2)])))].map Prod.fst =
      ([("id", PyVal.vInt 1), ("name", PyVal.vStr "Bobby"),
          ("meta", PyVal.vDict [("a", PyVal.vInt 2)])].filter
        (fun kv => !(decide (kv.1 ∈ exampleMd.primary_key)))).map Prod.fst) ∧
    (callback_read "users"
        [("id", PyVal.vInt 1), ("name", PyVal.vStr "Bobby"),
          ("meta", PyVal.vDict [("a", PyVal.vInt 2)])] exampleMd
        (execStmt exampleTbl (.update "users"
          [("name", PyVal.vStr "Bobby"),
            ("meta", PyVal.vStr (json_to_str (PyVal.vDict [("a", PyVal.vInt 2)])))]
          [("id", PyVal.vInt 1)])) =
      .ok (some (decodeRow exampleMd (applyAssigns exampleTbl.cols
        [("name", PyVal.vStr "Bobby"),
          ("meta", PyVal.vStr (json_to_str (PyVal.vDict [("a", PyVal.vInt 2)])))]
        [PyVal.vInt 1, PyVal.vStr "Bob", PyVal.vStr "[7]"])))) ∧
    ((decodeRow exampleMd (applyAssigns exampleTbl.cols
        [("name", PyVal.vStr "Bobby"),
          ("meta", PyVal.vStr (json_to_str (PyVal.vDict [("a", PyVal.vInt 2)])))]
        [PyVal.vInt 1, PyVal.vStr "Bob", PyVal.vStr "[7]"])).getD 0 .vNone =
      (decodeRow exampleMd [PyVal.vInt 1, PyVal.vStr "Bob", PyVal.vStr "[7]"]).getD 0 .vNone) ∧
    ((decodeRow exampleMd (applyAssigns exampleTbl.cols
        [("name", PyVal.vStr "Bobby"),
          ("meta", PyVal.vStr (json_to_str (PyVal.vDict [("a", PyVal.vInt 2)])))]
        [PyVal.vInt 1, PyVal.vStr "Bob", PyVal.vStr "[7]"])).getD 2 .vNone =
      PyVal.vDict [("a", PyVal.vInt 2)]) := by
  obtain ⟨h1, h2, h3, h4⟩ := C9_update_frame "users"
    [("id", PyVal.vInt 1), ("name", PyVal.vStr "Bobby"),
      ("meta", PyVal.vDict [("a", PyVal.vInt 2)])]
    exampleMd exampleTbl
    [("name", PyVal.vStr "Bobby"),
      ("meta", PyVal.vStr (json_to_str (PyVal.vDict [("a", PyVal.vInt 2)])))]
    [("id", PyVal.vInt 1)]
    [PyVal.vInt 1, PyVal.vStr "Bob", PyVal.vStr "[7]"] []
    (by decide) (by decide) rfl rfl rfl rfl
  exact ⟨h1, h2, h3 0 "id" rfl (by decide) (by decide),
    h4 2 "meta" (PyVal.vDict [("a", PyVal.vInt 2)]) rfl (by decide) (by simp) (by decide)⟩

end PiOrm
